import Mathlib

/-!
Verification development for the Alpha-Arena reverse-engineering pipeline.

The Python sources are shallowly embedded here:

* `src/src/models.py`            → `TradingDecision`, `ModelMessage`
* `src/src/chain_extractor.py`   → `ChainExtractor.*` definitions
* `src/src/sqlite_reader.py`     → `ExtensionDataReader.*` definitions
* `src/src/merger.py`            → `DataMerger.*` definitions
* `src/workflows/identify_unknown_models.py` → `ModelIdentifier.*` definitions

Modelling conventions, stated once:

* Python `float` arithmetic is embedded as exact rational (`ℚ`) arithmetic;
  decimal literals such as `0.3` denote the exact rationals `3/10`.
* Python `datetime` values are embedded as a `DateTime` structure of natural
  number fields; the constructor range checks of `datetime` are the predicate
  `DateTime.valid`.
* Regular-expression searches are embedded as hand-written scanners.  Each
  scanner is derived from the concrete pattern in the source; where the
  pattern is deterministic (backtracking cannot change the outcome, which is
  argued in the individual doc comments) the scanner implements the unique
  match directly.
* Code paths that raise a Python exception which is caught by an enclosing
  `try`/`except` of the source are embedded as `Option`, `none` marking the
  exceptional exit.
* Ambient state read by the source (`datetime.now()`) is passed explicitly
  (`year`, `now` parameters).
-/

/-! ## Embedded datetime (Python `datetime.datetime`) -/

/-- Embedding of a Python `datetime.datetime` value: seven natural-number
fields.  Construction range checks of the Python type are captured by
`DateTime.valid` below. -/
structure DateTime where
  year : Nat
  month : Nat
  day : Nat
  hour : Nat
  minute : Nat
  second : Nat
  microsecond : Nat
deriving DecidableEq, Repr

/-- Number of days in a month, with the Gregorian leap rule, as enforced by
the `datetime` constructor. -/
def daysInMonth (year month : Nat) : Nat :=
  if month = 2 then
    if year % 4 = 0 ∧ (year % 100 ≠ 0 ∨ year % 400 = 0) then 29 else 28
  else if month = 4 ∨ month = 6 ∨ month = 9 ∨ month = 11 then 30
  else 31

/-- Validity invariant enforced by the Python `datetime` constructor
(`MINYEAR = 1`, `MAXYEAR = 9999`). -/
def DateTime.valid (t : DateTime) : Prop :=
  1 ≤ t.year ∧ t.year ≤ 9999 ∧ 1 ≤ t.month ∧ t.month ≤ 12 ∧
  1 ≤ t.day ∧ t.day ≤ daysInMonth t.year t.month ∧
  t.hour ≤ 23 ∧ t.minute ≤ 59 ∧ t.second ≤ 59 ∧ t.microsecond ≤ 999999

instance (t : DateTime) : Decidable t.valid := by
  unfold DateTime.valid; infer_instance

/-- Embedding of `timestamp.replace(second=0, microsecond=0)` from
`DataMerger._create_dedup_key`. -/
def DateTime.floorToMinute (t : DateTime) : DateTime :=
  { t with second := 0, microsecond := 0 }

/-- The decimal digit character for `n < 10` (`'0'` + n). -/
def digitChar (n : Nat) : Char := Char.ofNat (48 + n)

/-- Two fixed decimal digits, as printed by `datetime.isoformat` for month,
day, hour, minute and second fields (the fields are below 100 for every
valid datetime, which the formatting relies on). -/
def pad2 (n : Nat) : List Char := [digitChar (n / 10), digitChar (n % 10)]

/-- Four fixed decimal digits, as printed by `datetime.isoformat` for the
year field. -/
def pad4 (n : Nat) : List Char :=
  [digitChar (n / 1000), digitChar (n / 100 % 10), digitChar (n / 10 % 10),
   digitChar (n % 10)]

/-- Six fixed decimal digits, as printed by `datetime.isoformat` for a
nonzero microsecond field. -/
def pad6 (n : Nat) : List Char :=
  [digitChar (n / 100000), digitChar (n / 10000 % 10), digitChar (n / 1000 % 10),
   digitChar (n / 100 % 10), digitChar (n / 10 % 10), digitChar (n % 10)]

/-- Embedding of Python `datetime.isoformat()`:
`YYYY-MM-DDTHH:MM:SS` with a `.ffffff` suffix exactly when the microsecond
field is nonzero. -/
def DateTime.isoformat (t : DateTime) : String :=
  String.mk (pad4 t.year ++ ['-'] ++ pad2 t.month ++ ['-'] ++ pad2 t.day ++
    ['T'] ++ pad2 t.hour ++ [':'] ++ pad2 t.minute ++ [':'] ++ pad2 t.second ++
    (if t.microsecond = 0 then [] else '.' :: pad6 t.microsecond))

/-- Lexicographic comparison of datetimes, the order used by Python when
sorting `datetime` objects. -/
def DateTime.lexLe (a b : DateTime) : Bool :=
  if a.year ≠ b.year then a.year < b.year
  else if a.month ≠ b.month then a.month < b.month
  else if a.day ≠ b.day then a.day < b.day
  else if a.hour ≠ b.hour then a.hour < b.hour
  else if a.minute ≠ b.minute then a.minute < b.minute
  else if a.second ≠ b.second then a.second < b.second
  else a.microsecond ≤ b.microsecond

/-! ## SHA-256 (Python `hashlib.sha256`)

A direct embedding of FIPS 180-4 SHA-256 over the UTF-8 bytes of a string,
used by `DataMerger._create_dedup_key`.  All word arithmetic is `Nat`
arithmetic reduced modulo `2 ^ 32`. -/

/-- UTF-8 encoding of one code point. -/
def utf8Enc (n : Nat) : List Nat :=
  if n < 128 then [n]
  else if n < 2048 then [192 + n / 64, 128 + n % 64]
  else if n < 65536 then [224 + n / 4096, 128 + n / 64 % 64, 128 + n % 64]
  else [240 + n / 262144, 128 + n / 4096 % 64, 128 + n / 64 % 64, 128 + n % 64]

/-- UTF-8 bytes of a string (embedding of Python `str.encode('utf-8')`). -/
def utf8Bytes (s : String) : List Nat :=
  (s.data.map (fun c => utf8Enc c.toNat)).flatten

def w32 : Nat := 4294967296

/-- Right rotation of a 32-bit word. -/
def rotr (k x : Nat) : Nat := (x / 2 ^ k + x % 2 ^ k * 2 ^ (32 - k)) % w32

def shaK : List Nat := [1116352408, 1899447441, 3049323471, 3921009573, 961987163, 1508970993, 2453635748, 2870763221, 3624381080, 310598401, 607225278, 1426881987, 1925078388, 2162078206, 2614888103, 3248222580, 3835390401, 4022224774, 264347078, 604807628, 770255983, 1249150122, 1555081692, 1996064986, 2554220882, 2821834349, 2952996808, 3210313671, 3336571891, 3584528711, 113926993, 338241895, 666307205, 773529912, 1294757372, 1396182291, 1695183700, 1986661051, 2177026350, 2456956037, 2730485921, 2820302411, 3259730800, 3345764771, 3516065817, 3600352804, 4094571909, 275423344, 430227734, 506948616, 659060556, 883997877, 958139571, 1322822218, 1537002063, 1747873779, 1955562222, 2024104815, 2227730452, 2361852424, 2428436474, 2756734187, 3204031479, 3329325298]

def shaH0 : List Nat := [1779033703, 3144134277, 1013904242, 2773480762, 1359893119, 2600822924, 528734635, 1541459225]

/-- SHA-256 message padding: append `0x80`, zero bytes to 56 mod 64, then the
bit length as an 8-byte big-endian integer. -/
def shaPad (msg : List Nat) : List Nat :=
  let L := msg.length
  let zeros := (64 - (L + 9) % 64) % 64
  let bits := L * 8
  msg ++ [128] ++ List.replicate zeros 0 ++
    [bits / 2 ^ 56 % 256, bits / 2 ^ 48 % 256, bits / 2 ^ 40 % 256,
     bits / 2 ^ 32 % 256, bits / 2 ^ 24 % 256, bits / 2 ^ 16 % 256,
     bits / 2 ^ 8 % 256, bits % 256]

/-- Split a byte list into 64-byte chunks. -/
def chunks64 (l : List Nat) : List (List Nat) :=
  if l = [] then []
  else l.take 64 :: chunks64 (l.drop 64)
termination_by l.length
decreasing_by
  simp only [List.length_drop]
  cases l with
  | nil => simp_all
  | cons a t => simp; omega

/-- Big-endian 32-bit words from bytes. -/
def bytesToWords : List Nat → List Nat
  | b0 :: b1 :: b2 :: b3 :: rest =>
      (b0 * 2 ^ 24 + b1 * 2 ^ 16 + b2 * 2 ^ 8 + b3) :: bytesToWords rest
  | _ => []

def shaSmallSigma0 (x : Nat) : Nat := (rotr 7 x).xor ((rotr 18 x).xor (x / 2 ^ 3))

def shaSmallSigma1 (x : Nat) : Nat := (rotr 17 x).xor ((rotr 19 x).xor (x / 2 ^ 10))

def shaBigSigma0 (x : Nat) : Nat := (rotr 2 x).xor ((rotr 13 x).xor (rotr 22 x))

def shaBigSigma1 (x : Nat) : Nat := (rotr 6 x).xor ((rotr 11 x).xor (rotr 25 x))

def shaCh (x y z : Nat) : Nat := (x.land y).xor ((x.xor 4294967295).land z)

def shaMaj (x y z : Nat) : Nat := (x.land y).xor ((x.land z).xor (y.land z))

/-- Extend the 16 message-schedule words to 64. -/
def extendSchedule (w : List Nat) (rounds : Nat) : List Nat :=
  match rounds with
  | 0 => w
  | r + 1 =>
      let i := w.length
      let nw := (shaSmallSigma1 (w.getD (i - 2) 0) + w.getD (i - 7) 0 +
        shaSmallSigma0 (w.getD (i - 15) 0) + w.getD (i - 16) 0) % w32
      extendSchedule (w ++ [nw]) r

/-- One round of the SHA-256 compression function. -/
def shaRound (st : List Nat) (kw : Nat × Nat) : List Nat :=
  match st with
  | [a, b, c, d, e, f, g, h] =>
      let t1 := (h + shaBigSigma1 e + shaCh e f g + kw.1 + kw.2) % w32
      let t2 := (shaBigSigma0 a + shaMaj a b c) % w32
      [(t1 + t2) % w32, a, b, c, (d + t1) % w32, e, f, g]
  | _ => st

/-- Process one 64-byte block. -/
def shaBlock (h : List Nat) (block : List Nat) : List Nat :=
  let w := extendSchedule (bytesToWords block) 48
  let st := (shaK.zip w).foldl (fun s kw => shaRound s kw) h
  (h.zip st).map (fun p => (p.1 + p.2) % w32)

/-- Hex string (lowercase) of a list of 32-bit words. -/
def wordsToHex (ws : List Nat) : List Char :=
  (ws.map (fun x =>
    [x / 2 ^ 28, x / 2 ^ 24 % 16, x / 2 ^ 20 % 16, x / 2 ^ 16 % 16,
     x / 2 ^ 12 % 16, x / 2 ^ 8 % 16, x / 2 ^ 4 % 16, x % 16].map
      (fun d => if d < 10 then digitChar d else Char.ofNat (87 + d)))).flatten

/-- Embedding of `hashlib.sha256(s.encode('utf-8')).hexdigest()`. -/
def sha256Hex (s : String) : String :=
  String.mk (wordsToHex ((chunks64 (shaPad (utf8Bytes s))).foldl shaBlock shaH0))

/-! ## String helpers (embedding Python `str` methods and regex char classes) -/

/-- Python `\s` / `str.strip()` whitespace, restricted to ASCII (all strings
handled by this system are ASCII). -/
def isSpaceChar (c : Char) : Bool :=
  c = ' ' ∨ c = '\t' ∨ c = '\n' ∨ c = '\r' ∨ c = '\x0b' ∨ c = '\x0c'

def isDigitChar (c : Char) : Bool := '0' ≤ c ∧ c ≤ '9'

def isUpperChar (c : Char) : Bool := 'A' ≤ c ∧ c ≤ 'Z'

def isAlphaChar (c : Char) : Bool := ('A' ≤ c ∧ c ≤ 'Z') ∨ ('a' ≤ c ∧ c ≤ 'z')

def toLowerChar (c : Char) : Char :=
  if isUpperChar c then Char.ofNat (c.toNat + 32) else c

def toUpperChar (c : Char) : Char :=
  if 'a' ≤ c ∧ c ≤ 'z' then Char.ofNat (c.toNat - 32) else c

/-- Embedding of Python `str.lower()` (ASCII). -/
def lowerStr (s : String) : String := String.mk (s.data.map toLowerChar)

/-- Embedding of Python `str.upper()` (ASCII). -/
def upperStr (s : String) : String := String.mk (s.data.map toUpperChar)

/-- Embedding of Python `str.title()` (ASCII): a letter is uppercased when the
previous character is not a letter, lowercased otherwise. -/
def titleChars : Bool → List Char → List Char
  | _, [] => []
  | prevAlpha, c :: cs =>
      if isAlphaChar c then
        (if prevAlpha then toLowerChar c else toUpperChar c) :: titleChars true cs
      else c :: titleChars false cs

def titleStr (s : String) : String := String.mk (titleChars false s.data)

def dropWhileSpace (l : List Char) : List Char := l.dropWhile isSpaceChar

/-- Embedding of Python `str.strip()` (ASCII whitespace). -/
def stripChars (l : List Char) : List Char :=
  ((l.dropWhile isSpaceChar).reverse.dropWhile isSpaceChar).reverse

def stripStr (s : String) : String := String.mk (stripChars s.data)

/-- Case-insensitive prefix test (ASCII), for `re.IGNORECASE` literals. -/
def ciPrefixOf : List Char → List Char → Bool
  | [], _ => true
  | _ :: _, [] => false
  | p :: ps, c :: cs => toLowerChar p = toLowerChar c ∧ ciPrefixOf ps cs

/-- Case-sensitive prefix test. -/
def litPrefixOf : List Char → List Char → Bool
  | [], _ => true
  | _ :: _, [] => false
  | p :: ps, c :: cs => p = c ∧ litPrefixOf ps cs

/-- Substring containment (Python `kw in text`). -/
def containsSub (needle : List Char) : List Char → Bool
  | [] => litPrefixOf needle []
  | c :: cs => litPrefixOf needle (c :: cs) || containsSub needle cs

/-- Leftmost-match search: try the matcher at every start position, in order,
the semantics of `re.search` / `re.finditer` restart. -/
def reFirst (f : List Char → Option α) : List Char → Option α
  | [] => f []
  | c :: cs =>
      match f (c :: cs) with
      | some a => some a
      | none => reFirst f cs

/-- Numeric value of a run of decimal digit characters. -/
def digitsVal (l : List Char) : Nat :=
  l.foldl (fun acc c => acc * 10 + (c.toNat - 48)) 0

/-- Value of a decimal literal made of digits and at most one dot, as accepted
by Python `float` on captures of the classes `[\d.]+` / `[\d,.]+` (after
comma stripping).  `none` marks the captures on which `float` raises
`ValueError` (no digit, or more than one dot). -/
def parseDecimalCore (l : List Char) : Option ℚ :=
  let intPart := l.takeWhile isDigitChar
  let rest := l.dropWhile isDigitChar
  match rest with
  | [] => if intPart = [] then none else some (digitsVal intPart)
  | '.' :: frac =>
      if frac.all isDigitChar then
        if intPart = [] ∧ frac = [] then none
        else some ((digitsVal intPart : ℚ) + (digitsVal frac : ℚ) / (10 ^ frac.length : ℚ))
      else none
  | _ => none

/-- Python `float` on a captured token whose characters come from the class
`[-\d.]` or `[-+]?[\d.]+`: an optional leading sign followed by a decimal
literal.  A sign appearing anywhere else makes `float` raise. -/
def parseSignedDecimal (l : List Char) : Option ℚ :=
  match l with
  | '-' :: rest => (parseDecimalCore rest).map (fun q => -q)
  | '+' :: rest => parseDecimalCore rest
  | _ => parseDecimalCore l

/-! ## Data model (`src/src/models.py`) -/

/-- Embedding of `models.TradingDecision`. -/
structure TradingDecision where
  symbol : String
  action : String
  confidence : ℚ
  quantity : Option ℚ
deriving DecidableEq, Repr

/-- Embedding of `models.ModelMessage`.  `market_data` is the insertion-order
association map the source builds (`Dict[str, Any]` holding per-symbol metric
maps). -/
structure ModelMessage where
  model_name : String
  timestamp : DateTime
  message_id : String
  user_prompt : String
  market_data : List (String × List (String × ℚ))
  chain_of_thought : String
  trading_decisions : List TradingDecision
  account_value : Option ℚ
  total_return : Option ℚ
  sharpe_ratio : Option ℚ
  scraped_at : DateTime
deriving DecidableEq, Repr

/-! ## Section extractor (`src/src/chain_extractor.py`)

`snapshot_data` is only ever used through `str(snapshot_data)`; the embedding
therefore takes that string directly.  The ambient reads
`datetime.now().year` (timestamp recovery) and `datetime.now()` (defaults of
`message_id` / `scraped_at`) are the explicit `year` / `now` parameters. -/

/-- Lazy capture body of `.*?(?=▶|$)` under `re.DOTALL`: everything up to the
first `▶`, the end of the string, or the position just before a trailing
newline (Python `$`). -/
def takeUntilMarkerOrEnd : List Char → List Char
  | [] => []
  | ['\n'] => []
  | c :: cs => if c = '▶' then [] else c :: takeUntilMarkerOrEnd cs

/-- One attempt of the search for `{name}.*?(?=▶|$)` (`re.DOTALL`, case
sensitive), returning `match.group(0)`. -/
def chainSectionTry (name : List Char) (l : List Char) : Option (List Char) :=
  if litPrefixOf name l then some (name ++ takeUntilMarkerOrEnd (l.drop name.length))
  else none

/-- Embedding of `re.sub(r"▶\s*" + section_name, "", content)`: delete every
leftmost non-overlapping occurrence of `▶`, whitespace, then the name.  The
pattern is deterministic because the name starts with a non-whitespace
character, so the greedy `\s*` must consume the whole whitespace run. -/
def subMarkerName (fuel : Nat) (name : List Char) (l : List Char) : List Char :=
  match fuel with
  | 0 => l
  | fuel + 1 =>
      match l with
      | [] => []
      | c :: cs =>
          if c = '▶' then
            let rest := dropWhileSpace cs
            if litPrefixOf name rest then subMarkerName fuel name (rest.drop name.length)
            else c :: subMarkerName fuel name cs
          else c :: subMarkerName fuel name cs

/-- Embedding of `ChainExtractor._extract_section`. -/
def ChainExtractor.extract_section (text : String) (name : String) : String :=
  match reFirst (chainSectionTry name.data) text.data with
  | some content => String.mk (stripChars (subMarkerName content.length name.data content))
  | none => ""

/-- The model-name literals of `ChainExtractor._extract_model_name` (the
regex escapes `\.` denote literal dots). -/
def modelPatterns : List String :=
  ["CLAUDE SONNET 4.5", "DEEPSEEK CHAT V3.1", "GEMINI 2.5 PRO", "GPT 5",
   "GROK 4", "QWEN3 MAX"]

/-- Leftmost case-insensitive occurrence of a literal, returning the matched
slice of the original text (`match.group(0)`). -/
def searchLiteralCI (lit : List Char) (text : List Char) : Option (List Char) :=
  reFirst (fun l => if ciPrefixOf lit l then some (l.take lit.length) else none) text

/-- Embedding of `ChainExtractor._extract_model_name`: first pattern, in list
order, whose case-insensitive search succeeds; result is title-cased. -/
def ChainExtractor.extract_model_name (text : String) : Option String :=
  (modelPatterns.findSome? (fun p => searchLiteralCI p.data text.data)).map
    (fun m => titleStr (String.mk m))

/-- Match `\d{1,2}` followed by a separator character (greedy: two digits
preferred, deterministic because a failed separator check cannot be repaired
by backtracking into the digit run). -/
def takeDigits12Then (sep : Char) (l : List Char) : Option (Nat × List Char) :=
  match l with
  | a :: b :: c :: rest =>
      if isDigitChar a ∧ isDigitChar b ∧ c = sep then some (digitsVal [a, b], rest)
      else if isDigitChar a ∧ b = sep then some (digitsVal [a], c :: rest)
      else none
  | [a, b] => if isDigitChar a ∧ b = sep then some (digitsVal [a], []) else none
  | _ => none

/-- Match `(\d{1,2})` followed by at least one whitespace character (the
whitespace is left in the returned remainder). -/
def takeDayDigits (l : List Char) : Option (Nat × List Char) :=
  match l with
  | a :: b :: c :: rest =>
      if isDigitChar a ∧ isDigitChar b ∧ isSpaceChar c then
        some (digitsVal [a, b], c :: rest)
      else if isDigitChar a ∧ isSpaceChar b then some (digitsVal [a], b :: c :: rest)
      else none
  | [a, b] => if isDigitChar a ∧ isSpaceChar b then some (digitsVal [a], [b]) else none
  | _ => none

/-- Match `(\d{2}):(\d{2}):(\d{2})`. -/
def takeHMS (l : List Char) : Option (Nat × Nat × Nat) :=
  match l with
  | h1 :: h2 :: ':' :: m1 :: m2 :: ':' :: s1 :: s2 :: _ =>
      if [h1, h2, m1, m2, s1, s2].all isDigitChar then
        some (digitsVal [h1, h2], digitsVal [m1, m2], digitsVal [s1, s2])
      else none
  | _ => none

/-- One attempt of `(\d{1,2})/(\d{1,2})\s+(\d{2}):(\d{2}):(\d{2})`. -/
def tryTimestampAt (l : List Char) : Option (Nat × Nat × Nat × Nat × Nat) := do
  let (mo, r1) ← takeDigits12Then '/' l
  let (d, r2) ← takeDayDigits r1
  let (h, mi, s) ← takeHMS (dropWhileSpace r2)
  pure (mo, d, h, mi, s)

/-- The `datetime(...)` constructor call: `none` embeds the `ValueError`
raised on out-of-range fields (caught by the `except` clause of
`extract_from_snapshot`). -/
def mkDatetimeChecked (y mo d h mi s : Nat) : Option DateTime :=
  let t : DateTime := ⟨y, mo, d, h, mi, s, 0⟩
  if t.valid then some t else none

/-- Embedding of `ChainExtractor._extract_timestamp`; `year` is the ambient
`datetime.now().year`. -/
def ChainExtractor.extract_timestamp (year : Nat) (text : String) : Option DateTime :=
  match reFirst tryTimestampAt text.data with
  | some (mo, d, h, mi, s) => mkDatetimeChecked year mo d h mi s
  | none => none

/-- Match the ordered alternation `(HOLD|BUY|SELL)` (the branches share no
first character, so at most one applies). -/
def takeAction (l : List Char) : Option (String × List Char) :=
  if litPrefixOf "HOLD".data l then some ("HOLD", l.drop 4)
  else if litPrefixOf "BUY".data l then some ("BUY", l.drop 3)
  else if litPrefixOf "SELL".data l then some ("SELL", l.drop 4)
  else none

/-- Consume `\s+` (at least one whitespace character, then the maximal run;
deterministic in this pattern because every following token starts with a
non-whitespace character). -/
def wsPlus (l : List Char) : Option (List Char) :=
  match l with
  | c :: cs => if isSpaceChar c then some (dropWhileSpace cs) else none
  | [] => none

def classDigitDot (c : Char) : Bool := isDigitChar c ∨ c = '.'

/-- One attempt of the `ChainExtractor._parse_trading_decisions` pattern
`([A-Z]+)\s+(HOLD|BUY|SELL)\s+(\d+)%\s+QUANTITY:\s+([\d.]+)`; returns the
four captures and the remainder after the match (where `re.finditer`
resumes). -/
def tryDecisionAt (l : List Char) : Option ((List Char × String × Nat × List Char) × List Char) := do
  let sym := l.takeWhile isUpperChar
  guard (sym ≠ [])
  let r1 ← wsPlus (l.dropWhile isUpperChar)
  let (act, r2) ← takeAction r1
  let r3 ← wsPlus r2
  let conf := r3.takeWhile isDigitChar
  guard (conf ≠ [])
  let r4 := r3.dropWhile isDigitChar
  match r4 with
  | '%' :: r5 => do
      let r6 ← wsPlus r5
      guard (litPrefixOf "QUANTITY:".data r6)
      let r7 ← wsPlus (r6.drop 9)
      let qty := r7.takeWhile classDigitDot
      guard (qty ≠ [])
      pure ((sym, act, digitsVal conf, qty), r7.dropWhile classDigitDot)
  | _ => none

/-- The `re.finditer` loop of `ChainExtractor._parse_trading_decisions`,
fuel-bounded (any fuel at least the text length gives the exact loop; every
match consumes at least one character).  `none` embeds the `ValueError` that
`float` raises on a malformed quantity capture, which propagates out of the
parse into the `except` clause of `extract_from_snapshot`. -/
def chainDecisionsGo (fuel : Nat) (l : List Char) : Option (List TradingDecision) :=
  match fuel with
  | 0 => some []
  | fuel + 1 =>
      match l with
      | [] => some []
      | c :: cs =>
          match tryDecisionAt (c :: cs) with
          | some ((sym, act, conf, qtyTok), rest) => do
              let qty ← parseDecimalCore qtyTok
              let ds ← chainDecisionsGo fuel rest
              pure (⟨String.mk sym, act, (conf : ℚ) / 100, some qty⟩ :: ds)
          | none => chainDecisionsGo fuel cs

/-- Embedding of `ChainExtractor._parse_trading_decisions`. -/
def ChainExtractor.parse_trading_decisions (text : String) : Option (List TradingDecision) :=
  chainDecisionsGo (text.data.length + 1) text.data

/-- Capture `[-+]?[\d.]+`: optional sign, then a maximal nonempty run of
digits and dots; returns the capture (sign included, as in `match.group(1)`)
and the remainder. -/
def signedCap (l : List Char) : Option (List Char × List Char) :=
  match l with
  | '-' :: rest =>
      let cap := rest.takeWhile classDigitDot
      if cap = [] then none else some ('-' :: cap, rest.dropWhile classDigitDot)
  | '+' :: rest =>
      let cap := rest.takeWhile classDigitDot
      if cap = [] then none else some ('+' :: cap, rest.dropWhile classDigitDot)
  | _ =>
      let cap := l.takeWhile classDigitDot
      if cap = [] then none else some (cap, l.dropWhile classDigitDot)

/-- Lazy `.*?` (newline excluded) up to a stop character, trying the
continuation at each candidate stop, extending past it on failure — the
backtracking order of a lazy quantifier. -/
def lazyThen (stop : Char) (cont : List Char → Option α) : List Char → Option α
  | [] => none
  | c :: cs =>
      if c = stop then
        match cont cs with
        | some a => some a
        | none => if c = '\n' then none else lazyThen stop cont cs
      else if c = '\n' then none
      else lazyThen stop cont cs

/-- One attempt of `Current Account Value:\s*([\d,.]+)`; returns the capture. -/
def tryAccountValueAt (l : List Char) : Option (List Char) := do
  guard (litPrefixOf "Current Account Value:".data l)
  let r := dropWhileSpace (l.drop "Current Account Value:".data.length)
  let cap := r.takeWhile (fun c => isDigitChar c ∨ c = ',' ∨ c = '.')
  guard (cap ≠ [])
  pure cap

/-- One attempt of `Current Total Return.*?:\s*([-+]?[\d.]+)%`. -/
def tryTotalReturnAt (l : List Char) : Option (List Char) := do
  guard (litPrefixOf "Current Total Return".data l)
  lazyThen ':' (fun r => do
      let (cap, rest) ← signedCap (dropWhileSpace r)
      guard (litPrefixOf ['%'] rest)
      pure cap)
    (l.drop "Current Total Return".data.length)

/-- One attempt of `Sharpe Ratio:\s*([-+]?[\d.]+)`. -/
def trySharpeAt (l : List Char) : Option (List Char) := do
  guard (litPrefixOf "Sharpe Ratio:".data l)
  let (cap, _) ← signedCap (dropWhileSpace (l.drop "Sharpe Ratio:".data.length))
  pure cap

/-- Embedding of `ChainExtractor._extract_account_metrics`.  The outer
`Option` is the `ValueError` of a failed `float(...)` (propagating to the
`except` clause of `extract_from_snapshot`); the inner `Option`s are the
`None` defaults of unmatched fields. -/
def ChainExtractor.extract_account_metrics (up : String) :
    Option (Option ℚ × Option ℚ × Option ℚ) := do
  let account_value ← match reFirst tryAccountValueAt up.data with
    | none => pure (none : Option ℚ)
    | some cap =>
        match parseDecimalCore (cap.filter (fun c => c ≠ ',')) with
        | none => none
        | some v => pure (some v)
  let total_return ← match reFirst tryTotalReturnAt up.data with
    | none => pure (none : Option ℚ)
    | some cap =>
        match parseSignedDecimal cap with
        | none => none
        | some v => pure (some v)
  let sharpe ← match reFirst trySharpeAt up.data with
    | none => pure (none : Option ℚ)
    | some cap =>
        match parseSignedDecimal cap with
        | none => none
        | some v => pure (some v)
  pure (account_value, total_return, sharpe)

/-- The fixed watch-list of `ChainExtractor._extract_market_data`. -/
def coinSymbols : List String := ["BTC", "ETH", "SOL", "BNB", "XRP", "DOGE"]

/-- The lookahead `(?=ALL [A-Z]+ DATA|HERE IS YOUR ACCOUNT|$)` of the
market-data block pattern (`$` holds at the end of the string and before a
trailing newline). -/
def mdStop (l : List Char) : Bool :=
  (match l with
   | 'A' :: 'L' :: 'L' :: ' ' :: rest =>
       !(rest.takeWhile isUpperChar).isEmpty &&
         litPrefixOf " DATA".data (rest.dropWhile isUpperChar)
   | _ => false) ||
  litPrefixOf "HERE IS YOUR ACCOUNT".data l || l.isEmpty || l = ['\n']

/-- Lazy capture body of `.*?` (`re.DOTALL`) up to the first position where
`mdStop` holds. -/
def takeUntilMdStop : List Char → List Char
  | [] => []
  | c :: cs => if mdStop (c :: cs) then [] else c :: takeUntilMdStop cs

/-- One attempt of `ALL {symbol} DATA.*?(?=ALL [A-Z]+ DATA|HERE IS YOUR
ACCOUNT|$)` (`re.DOTALL`), returning `match.group(0)` (header included). -/
def tryBlockAt (sym : List Char) (l : List Char) : Option (List Char) :=
  let header := "ALL ".data ++ sym ++ " DATA".data
  if litPrefixOf header l then
    some (header ++ takeUntilMdStop (l.drop header.length))
  else none

/-- One attempt of `{key}\s*=\s*({cls}+)`; returns the capture. -/
def tryKeyEqAt (key : List Char) (cls : Char → Bool) (l : List Char) : Option (List Char) := do
  guard (litPrefixOf key l)
  match dropWhileSpace (l.drop key.length) with
  | '=' :: r2 =>
      let cap := (dropWhileSpace r2).takeWhile cls
      if cap = [] then none else some cap
  | _ => none

def classMinusDigitDot (c : Char) : Bool := c = '-' ∨ isDigitChar c ∨ c = '.'

/-- One attempt of `current_rsi.*?=\s*([\d.]+)` (lazy dot, newline excluded). -/
def tryRsiAt (l : List Char) : Option (List Char) := do
  guard (litPrefixOf "current_rsi".data l)
  lazyThen '=' (fun r =>
      let cap := (dropWhileSpace r).takeWhile classDigitDot
      if cap = [] then none else some cap)
    (l.drop "current_rsi".data.length)

/-- Embedding of `ChainExtractor._extract_market_data`.  The outer `Option`
is a `ValueError` of `float(...)` on a malformed capture; per-coin entries
appear in watch-list order, per-metric entries in the order price, macd,
rsi, and a coin contributes only if at least one metric matched — exactly
the dictionary insertion order of the source. -/
def ChainExtractor.extract_market_data (up : String) :
    Option (List (String × List (String × ℚ))) :=
  coinSymbols.foldlM (fun acc sym => do
    match reFirst (tryBlockAt sym.data) up.data with
    | none => pure acc
    | some block => do
        let cd1 ← match reFirst (tryKeyEqAt "current_price".data classDigitDot) block with
          | none => pure ([] : List (String × ℚ))
          | some cap =>
              match parseDecimalCore cap with
              | none => none
              | some v => pure [("current_price", v)]
        let cd2 ← match reFirst (tryKeyEqAt "current_macd".data classMinusDigitDot) block with
          | none => pure cd1
          | some cap =>
              match parseSignedDecimal cap with
              | none => none
              | some v => pure (cd1 ++ [("current_macd", v)])
        let cd3 ← match reFirst tryRsiAt block with
          | none => pure cd2
          | some cap =>
              match parseDecimalCore cap with
              | none => none
              | some v => pure (cd2 ++ [("current_rsi", v)])
        pure (if cd3 = [] then acc else acc ++ [(sym, cd3)])) []

/-- Embedding of `ChainExtractor.extract_from_snapshot`.  `year` and `now`
are the ambient `datetime.now()` reads; `text` is `str(snapshot_data)`.
`none` covers every discard path of the source: missing model name or
timestamp, empty chain-of-thought section, and any exception reaching the
enclosing `except` clause. -/
def ChainExtractor.extract_from_snapshot (year : Nat) (now : DateTime) (text : String) :
    Option ModelMessage := do
  let model_name ← ChainExtractor.extract_model_name text
  let timestamp ← ChainExtractor.extract_timestamp year text
  let user_prompt := ChainExtractor.extract_section text "USER_PROMPT"
  let chain_of_thought := ChainExtractor.extract_section text "CHAIN_OF_THOUGHT"
  let decisions_text := ChainExtractor.extract_section text "TRADING_DECISIONS"
  if chain_of_thought = "" then none
  else do
    let trading_decisions ← ChainExtractor.parse_trading_decisions decisions_text
    let (account_value, total_return, sharpe) ← ChainExtractor.extract_account_metrics user_prompt
    let market_data ← ChainExtractor.extract_market_data user_prompt
    pure { model_name := model_name, timestamp := timestamp,
           message_id := DateTime.isoformat now, user_prompt := user_prompt,
           market_data := market_data, chain_of_thought := chain_of_thought,
           trading_decisions := trading_decisions, account_value := account_value,
           total_return := total_return, sharpe_ratio := sharpe, scraped_at := now }

/-! ## Extension-database reader (`src/src/sqlite_reader.py`)

The SQLite store and the JSON decoding of its `positions` / `market_data`
columns are external collaborators; a row is embedded as `ExtensionRow` with
those two columns already decoded (`none` standing for NULL, the empty
string, or an undecodable value — the code paths on which the source leaves
the corresponding field empty).  The ambient `datetime.now()` fallback of
the timestamp parsing is the explicit `now` parameter. -/

/-- Suffix of a whitespace run after its last newline (the part the greedy
`\s*` of `\s*\n` hands back to the following capture). -/
def afterLastNewline (run : List Char) : List Char :=
  (run.reverse.takeWhile (fun c => c ≠ '\n')).reverse

/-- One attempt of the primary pattern `▶\s*{name}\s*\n(.*?)(?=▶|$)`
(`re.DOTALL | re.IGNORECASE`), returning `match.group(1)`.  The greedy
`\s*\n` consumes the whitespace run after the name up to and including its
last newline (and fails when the run has none). -/
def sqliteSectionTry1 (name : List Char) (l : List Char) : Option (List Char) :=
  match l with
  | '▶' :: cs =>
      let r := dropWhileSpace cs
      if ciPrefixOf name r then
        let after := r.drop name.length
        let run := after.takeWhile isSpaceChar
        if run.contains '\n' then
          some (takeUntilMarkerOrEnd (afterLastNewline run ++ after.drop run.length))
        else none
      else none
  | _ => none

/-- Lazy capture body of `(.*?)(?={name}|$)` (`re.DOTALL | re.IGNORECASE`):
up to the next case-insensitive occurrence of the name, the end of the
string, or the position before a trailing newline. -/
def takeUntilNameOrEnd (name : List Char) : List Char → List Char
  | [] => []
  | c :: cs =>
      if ciPrefixOf name (c :: cs) || (c = '\n' && cs.isEmpty) then []
      else c :: takeUntilNameOrEnd name cs

/-- One attempt of the fallback pattern `{name}\s*\n(.*?)(?={name}|$)`
(`re.DOTALL | re.IGNORECASE`; for these section names
`section_name.split()[0]` is the name itself). -/
def sqliteSectionTry2 (name : List Char) (l : List Char) : Option (List Char) :=
  if ciPrefixOf name l then
    let after := l.drop name.length
    let run := after.takeWhile isSpaceChar
    if run.contains '\n' then
      some (takeUntilNameOrEnd name (afterLastNewline run ++ after.drop run.length))
    else none
  else none

/-- Embedding of `ExtensionDataReader._extract_section`: primary marker
pattern first, bare-label fallback second, empty string when neither
matches. -/
def ExtensionDataReader.extract_section (content : String) (name : String) : String :=
  match reFirst (sqliteSectionTry1 name.data) content.data with
  | some cap => String.mk (stripChars cap)
  | none =>
      match reFirst (sqliteSectionTry2 name.data) content.data with
      | some cap => String.mk (stripChars cap)
      | none => ""

/-- Embedding of Python `text.split('\n')`. -/
def splitNl : List Char → List (List Char)
  | [] => [[]]
  | c :: cs =>
      if c = '\n' then [] :: splitNl cs
      else
        match splitNl cs with
        | h :: t => (c :: h) :: t
        | [] => [[c]]

/-- The stripped nonempty lines of
`ExtensionDataReader._parse_trading_decisions_text`. -/
def decisionLines (text : String) : List (List Char) :=
  ((splitNl text.data).map stripChars).filter (fun l => l ≠ [])

/-- The symbol test `re.match(r'^[A-Z]{2,5}$', line)`. -/
def isSymbolLine (l : List Char) : Bool :=
  l.all isUpperChar && 2 ≤ l.length && l.length ≤ 5

/-- The confidence test `re.match(r'(\d+)%', line)` (anchored at the line
start; trailing text is ignored). -/
def confLineMatch (l : List Char) : Option Nat :=
  let d := l.takeWhile isDigitChar
  if d ≠ [] ∧ litPrefixOf ['%'] (l.dropWhile isDigitChar) then some (digitsVal d)
  else none

/-- The quantity test `re.match(r'QUANTITY:\s*([-\d.]+)', line)`, returning
the capture. -/
def qtyLineMatch (l : List Char) : Option (List Char) := do
  guard (litPrefixOf "QUANTITY:".data l)
  let cap := (dropWhileSpace (l.drop "QUANTITY:".data.length)).takeWhile classMinusDigitDot
  if cap = [] then none else some cap

/-- The index-walking loop of
`ExtensionDataReader._parse_trading_decisions_text`, as structural recursion
on the line list (each branch advances the index past exactly the lines it
consumed).  `none` embeds the uncaught `ValueError` of `float` on a
malformed quantity capture, which propagates to the caller of
`_row_to_model_message`. -/
def sqliteDecisionsGo (fuel : Nat) (lines : List (List Char)) : Option (List TradingDecision) :=
  match fuel with
  | 0 => some []
  | fuel + 1 =>
    match lines with
    | [] => some []
    | sym :: rest =>
      if isSymbolLine sym then
        match rest with
        | [] => some []
        | act :: rest2 =>
            match rest2 with
            | [] =>
                (sqliteDecisionsGo fuel rest2).map
                  (⟨String.mk sym, upperStr (String.mk act), 1/2, none⟩ :: ·)
            | c :: rest3 =>
                match confLineMatch c with
                | some n =>
                    match rest3 with
                    | [] =>
                        (sqliteDecisionsGo fuel rest3).map
                          (⟨String.mk sym, upperStr (String.mk act), (n : ℚ) / 100, none⟩ :: ·)
                    | q :: rest4 =>
                        match qtyLineMatch q with
                        | some cap => do
                            let v ← parseSignedDecimal cap
                            let ds ← sqliteDecisionsGo fuel rest4
                            pure (⟨String.mk sym, upperStr (String.mk act), (n : ℚ) / 100, some v⟩ :: ds)
                        | none =>
                            (sqliteDecisionsGo fuel rest3).map
                              (⟨String.mk sym, upperStr (String.mk act), (n : ℚ) / 100, none⟩ :: ·)
                | none =>
                    (sqliteDecisionsGo fuel rest2).map
                      (⟨String.mk sym, upperStr (String.mk act), 1/2, none⟩ :: ·)
      else sqliteDecisionsGo fuel rest
/-- Embedding of `ExtensionDataReader._parse_trading_decisions_text`. -/
def ExtensionDataReader.parse_trading_decisions_text (text : String) :
    Option (List TradingDecision) :=
  sqliteDecisionsGo (decisionLines text).length (decisionLines text)

/-- Coarse store-boundary embedding of one JSON object of the `positions`
column: only the four keys the source reads, `none` standing for an absent
key. -/
structure PositionEntry where
  symbol : Option String
  side : Option String
  confidence : Option ℚ
  size : Option ℚ
deriving DecidableEq, Repr

/-- Embedding of one row of the `model_chat` table as read by
`ExtensionDataReader`. -/
structure ExtensionRow where
  id : Nat
  model_name : String
  timestamp : String
  raw_content : Option String
  reasoning : Option String
  action : Option String
  confidence : Option ℚ
  positions : Option (List PositionEntry)
  market_data : Option (List (String × List (String × ℚ)))
  message_hash : String
  scraped_at : String
deriving DecidableEq, Repr

/-- Python `row['confidence'] or 0.5` (NULL and `0.0` are falsy). -/
def rowConfDefault (rc : Option ℚ) : ℚ :=
  match rc with
  | some c => if c ≠ 0 then c else 1/2
  | none => 1/2

/-- Python `a or b` on an optional string and a string (NULL and the empty
string are falsy). -/
def pyOrStr (a : Option String) (b : String) : String :=
  match a with
  | some s => if s ≠ "" then s else b
  | none => b

/-- The decision built from one structured `positions` entry:
`TradingDecision(symbol=pos.get('symbol','UNKNOWN'), action=pos.get('side',
'HOLD'), confidence=float(pos.get('confidence', row['confidence'] or 0.5)),
quantity=pos.get('size'))`. -/
def posDecision (rc : Option ℚ) (p : PositionEntry) : TradingDecision :=
  ⟨p.symbol.getD "UNKNOWN", p.side.getD "HOLD", p.confidence.getD (rowConfDefault rc), p.size⟩

/-- Exactly two decimal digits. -/
def parse2Digits : List Char → Option (Nat × List Char)
  | a :: b :: rest =>
      if isDigitChar a ∧ isDigitChar b then some (digitsVal [a, b], rest) else none
  | _ => none

/-- Modelled subset of Python `datetime.fromisoformat`: accepts
`YYYY-MM-DD`, optionally followed by `T` or a space and `HH:MM:SS` with an
optional `.ffffff` microsecond part, validated by the `datetime` range
checks; `none` embeds the `ValueError` on anything else.  (The source only
ever feeds it strings produced by `datetime.isoformat`.) -/
def isoParse (s : String) : Option DateTime := do
  match s.data with
  | y1 :: y2 :: y3 :: y4 :: '-' :: rest => do
      guard ([y1, y2, y3, y4].all isDigitChar)
      let y := digitsVal [y1, y2, y3, y4]
      let (mo, r1) ← parse2Digits rest
      match r1 with
      | '-' :: r2 => do
          let (d, r3) ← parse2Digits r2
          match r3 with
          | [] =>
              let t : DateTime := ⟨y, mo, d, 0, 0, 0, 0⟩
              if t.valid then some t else none
          | sep :: r4 => do
              guard (sep = 'T' ∨ sep = ' ')
              let (h, r5) ← parse2Digits r4
              match r5 with
              | ':' :: r6 => do
                  let (mi, r7) ← parse2Digits r6
                  match r7 with
                  | ':' :: r8 => do
                      let (sec, r9) ← parse2Digits r8
                      match r9 with
                      | [] =>
                          let t : DateTime := ⟨y, mo, d, h, mi, sec, 0⟩
                          if t.valid then some t else none
                      | '.' :: r10 => do
                          guard (r10.all isDigitChar ∧ r10.length = 6)
                          let t : DateTime := ⟨y, mo, d, h, mi, sec, digitsVal r10⟩
                          if t.valid then some t else none
                      | _ => none
                  | _ => none
              | _ => none
      | _ => none
  | _ => none

/-- Embedding of `ExtensionDataReader._row_to_model_message`.  `none` embeds
the uncaught `ValueError` of a malformed quantity in the decisions text
(callers catch it and skip the row). -/
def ExtensionDataReader.row_to_model_message (now : DateTime) (row : ExtensionRow) :
    Option ModelMessage := do
  let raw_content := row.raw_content.getD ""
  let user_prompt0 := ExtensionDataReader.extract_section raw_content "USER_PROMPT"
  let chain0 := ExtensionDataReader.extract_section raw_content "CHAIN_OF_THOUGHT"
  let trading_decisions_text := ExtensionDataReader.extract_section raw_content "TRADING_DECISIONS"
  let user_prompt :=
    if user_prompt0 = "" then "Market data analysis at " ++ row.timestamp else user_prompt0
  let chain_of_thought := if chain0 = "" then pyOrStr row.reasoning raw_content else chain0
  let td1 : List TradingDecision :=
    match row.positions with
    | some poss => poss.map (posDecision row.confidence)
    | none => []
  let td2 ←
    if td1 = [] ∧ trading_decisions_text ≠ "" then
      ExtensionDataReader.parse_trading_decisions_text trading_decisions_text
    else pure td1
  let trading_decisions :=
    if td2 = [] then
      match row.action with
      | some a =>
          if a ≠ "" then [⟨"UNKNOWN", a, rowConfDefault row.confidence, none⟩] else []
      | none => []
    else td2
  let market_data := (row.market_data).getD []
  let timestamp := (isoParse row.timestamp).getD now
  let scraped_at := (isoParse row.scraped_at).getD now
  pure { model_name := row.model_name, timestamp := timestamp,
         message_id := row.message_hash, user_prompt := user_prompt,
         market_data := market_data, chain_of_thought := chain_of_thought,
         trading_decisions := trading_decisions, account_value := none,
         total_return := none, sharpe_ratio := none, scraped_at := scraped_at }

/-! ## Cross-source merge engine (`src/src/merger.py`)

`_deduplicate_messages` and `_create_dedup_key` operate purely on in-memory
collections; the store reads of `merge_all` / `get_merge_statistics` are the
collaborators' responsibility and the embedding takes the two message lists
directly (per-source counts are the list lengths). -/

/-- Python string slicing `s[:n]`: the first `n` code points. -/
def strTake (s : String) (n : Nat) : String := String.mk (s.data.take n)

/-- Embedding of `DataMerger._create_dedup_key`:
`f"{model_name}:{sha256(chain)[:16]}:{minute_floor(timestamp).isoformat()}"`. -/
def DataMerger.create_dedup_key (msg : ModelMessage) : String :=
  let content_hash := strTake (sha256Hex msg.chain_of_thought) 16
  let timestamp_rounded := msg.timestamp.floorToMinute
  msg.model_name ++ ":" ++ content_hash ++ ":" ++ timestamp_rounded.isoformat

/-- The loop state of `_deduplicate_messages`: the `seen_keys` set (as the
list of keys in first-seen order) and the `unique_messages` insertion-order
dictionary (as an association list; Python dict update keeps the original
position). -/
structure MergeState where
  seen_keys : List String
  unique_messages : List (String × ModelMessage × String)
deriving DecidableEq, Repr

/-- One iteration of the inner loop of `_deduplicate_messages`. -/
def mergeInsert (priority_source : String) (st : MergeState) (msg : ModelMessage)
    (source_name : String) : MergeState :=
  let key := DataMerger.create_dedup_key msg
  if key ∈ st.seen_keys then
    if source_name = priority_source then
      { st with unique_messages :=
          st.unique_messages.map (fun e => if e.1 = key then (key, msg, source_name) else e) }
    else st
  else
    { seen_keys := st.seen_keys ++ [key],
      unique_messages := st.unique_messages ++ [(key, msg, source_name)] }

/-- The per-source loop of `_deduplicate_messages`. -/
def processMessages (priority_source : String) (st : MergeState)
    (msgs : List ModelMessage) (source_name : String) : MergeState :=
  msgs.foldl (fun st msg => mergeInsert priority_source st msg source_name) st

/-- Embedding of `DataMerger._deduplicate_messages` (including the final
stable sort by timestamp, newest first). -/
def DataMerger.deduplicate_messages (extension_messages playwright_messages : List ModelMessage)
    (priority_source : String) : List ModelMessage :=
  let sources :=
    if priority_source = "extension" then
      [(extension_messages, "extension"), (playwright_messages, "playwright")]
    else
      [(playwright_messages, "playwright"), (extension_messages, "extension")]
  let st := sources.foldl (fun st p => processMessages priority_source st p.1 p.2) ⟨[], []⟩
  (st.unique_messages.map (fun e => e.2.1)).mergeSort
    (fun a b => DateTime.lexLe b.timestamp a.timestamp)

/-- The `duplicates_removed` statistic of `DataMerger.get_merge_statistics`:
`count(A) + count(B) - len(merged)`, where the merge is `merge_all()` with
its default priority source `"extension"`. -/
def DataMerger.duplicates_removed (extension_messages playwright_messages : List ModelMessage) : ℤ :=
  (extension_messages.length : ℤ) + (playwright_messages.length : ℤ) -
    ((DataMerger.deduplicate_messages extension_messages playwright_messages "extension").length : ℤ)

/-! ## Identity inference engine (`src/workflows/identify_unknown_models.py`)

Rows of the `structured_reasoning ⋈ model_chat` join are embedded as
`SRRow`; the JSON decoding of `entry_indicators` happens at the store
boundary (`none` standing for NULL, the empty string, or a value whose
decode or iteration raises — all the paths on which the source contributes
nothing).  `reasoning` is embedded non-null: on a NULL the source's
`len(unknown_data.get('reasoning', ''))` would raise `TypeError` and no
score would be produced at all. -/

/-- One row of the fingerprint-building query of
`ModelIdentifier._build_fingerprints` / `identify_all_unknown`. -/
structure SRRow where
  message_id : Nat
  model_name : String
  entry_indicators : Option (List String)
  exit_type : Option String
  confidence_level : Option String
  risk_management : Option String
  reasoning : Option String
deriving DecidableEq, Repr

/-- Embedding of `collections.Counter` increment (`counter[k] += 1`). -/
def counterAdd (c : List (String × Nat)) (k : String) : List (String × Nat) :=
  if c.any (fun e => e.1 = k) then
    c.map (fun e => if e.1 = k then (e.1, e.2 + 1) else e)
  else c ++ [(k, 1)]

/-- Counter key membership (`k in counter`). -/
def counterHas (c : List (String × Nat)) (k : String) : Bool :=
  c.any (fun e => e.1 = k)

/-- Counter value lookup (`counter[k]` for a present key). -/
def counterGet (c : List (String × Nat)) (k : String) : Nat :=
  match c.find? (fun e => e.1 = k) with
  | some e => e.2
  | none => 0

/-- The fixed risk keyword list of `identify_unknown_models.py`. -/
def riskKeywordList : List String := ["stop loss", "position size", "risk", "drawdown", "hedge"]

/-- Embedding of one model's fingerprint dictionary.  The source also
computes `length_std`, which no consumer reads; its square root leaves ℚ and
it is omitted here. -/
structure Fingerprint where
  reasoning_lengths : List Nat
  entry_indicators : List (String × Nat)
  exit_types : List (String × Nat)
  confidence_levels : List (String × Nat)
  risk_keywords : List (String × Nat)
  total_messages : Nat
  avg_length : Option ℚ
deriving DecidableEq, Repr

def emptyFingerprint : Fingerprint := ⟨[], [], [], [], [], 0, none⟩

/-- The per-row accumulation of `ModelIdentifier._build_fingerprints`. -/
def fingerprintStep (fp : Fingerprint) (row : SRRow) : Fingerprint :=
  let fp :=
    { fp with
      total_messages := fp.total_messages + 1,
      reasoning_lengths := fp.reasoning_lengths ++ [(row.reasoning.getD "").length] }
  let fp :=
    match row.entry_indicators with
    | some inds => { fp with entry_indicators := inds.foldl counterAdd fp.entry_indicators }
    | none => fp
  let fp :=
    match row.exit_type with
    | some s => if s ≠ "" then { fp with exit_types := counterAdd fp.exit_types s } else fp
    | none => fp
  let fp :=
    match row.confidence_level with
    | some s =>
        if s ≠ "" then { fp with confidence_levels := counterAdd fp.confidence_levels s } else fp
    | none => fp
  match row.risk_management with
  | some s =>
      if s ≠ "" then
        let risk_text := lowerStr s
        let rk := riskKeywordList.foldl
          (fun c kw => if containsSub kw.data risk_text.data then counterAdd c kw else c)
          fp.risk_keywords
        { fp with risk_keywords := rk }
      else fp
  | none => fp

/-- One loop iteration over the join rows (the `WHERE sr.model_name !=
'unknown-model'` filter of the query included). -/
def buildStep (fps : List (String × Fingerprint)) (row : SRRow) : List (String × Fingerprint) :=
  if row.model_name = "unknown-model" then fps
  else if fps.any (fun e => e.1 = row.model_name) then
    fps.map (fun e => if e.1 = row.model_name then (e.1, fingerprintStep e.2 row) else e)
  else fps ++ [(row.model_name, fingerprintStep emptyFingerprint row)]

/-- The averaging pass after the row loop (`avg_length` is set only when
`reasoning_lengths` is nonempty, which holds for every built entry). -/
def finalizeFingerprint (fp : Fingerprint) : Fingerprint :=
  if fp.reasoning_lengths ≠ [] then
    let avg := (fp.reasoning_lengths.map (fun n : Nat => (n : ℚ))).sum /
      (fp.reasoning_lengths.length : ℚ)
    { fp with avg_length := some avg }
  else fp

/-- Embedding of `ModelIdentifier._build_fingerprints`. -/
def ModelIdentifier.build_fingerprints (rows : List SRRow) : List (String × Fingerprint) :=
  (rows.foldl buildStep []).map (fun e => (e.1, finalizeFingerprint e.2))

/-- The unknown record scored by `ModelIdentifier.match_unknown_message`. -/
structure UnknownData where
  entry_indicators : Option (List String)
  exit_type : Option String
  confidence_level : Option String
  risk_management : Option String
  reasoning : String
deriving DecidableEq, Repr

/-- Truthiness of an optional string field (`None` and `''` falsy). -/
def truthyStr (o : Option String) : Bool :=
  match o with
  | some s => s ≠ ""
  | none => false

/-- Sub-score block 1 of `ModelIdentifier.match_unknown_message`: reasoning
length similarity, weight 0.3, guarded by the truthiness of
`fp.get('avg_length')` (absent or `0.0` skips the block). -/
def lengthStep (fp : Fingerprint) (u : UnknownData) (sw : ℚ × ℚ) : ℚ × ℚ :=
  match fp.avg_length with
  | some avg =>
      if avg ≠ 0 then
        let unknown_length : ℚ := (u.reasoning.length : ℚ)
        let length_diff := |unknown_length - avg|
        let length_similarity := max 0 (1 - length_diff / avg)
        (sw.1 + length_similarity * 0.3, sw.2 + 0.3)
      else sw
  | none => sw

/-- Sub-score block 2: entry-indicator overlap, weight 0.25, guarded by a
truthy `entry_indicators` value that decodes to a nonempty list (matches are
counted with multiplicity over the unknown record's list). -/
def indicatorStep (fp : Fingerprint) (u : UnknownData) (sw : ℚ × ℚ) : ℚ × ℚ :=
  match u.entry_indicators with
  | some unknown_inds =>
      let indicator_matches :=
        (unknown_inds.filter (fun ind => counterHas fp.entry_indicators ind)).length
      if unknown_inds ≠ [] then
        (sw.1 + ((indicator_matches : ℚ) / (unknown_inds.length : ℚ)) * 0.25, sw.2 + 0.25)
      else sw
  | none => sw

/-- Sub-score block 3: exit-type affinity, weight 0.15; the model's relative
frequency of the unknown record's exit type, only when that type is a key of
the model's counter. -/
def exitStep (fp : Fingerprint) (u : UnknownData) (sw : ℚ × ℚ) : ℚ × ℚ :=
  if truthyStr u.exit_type ∧ fp.exit_types ≠ [] then
    if counterHas fp.exit_types (u.exit_type.getD "") then
      (sw.1 + ((counterGet fp.exit_types (u.exit_type.getD "") : ℚ) /
        (fp.total_messages : ℚ)) * 0.15, sw.2 + 0.15)
    else sw
  else sw

/-- Sub-score block 4: confidence-level affinity, weight 0.15 (same shape as
the exit-type block). -/
def confidenceStep (fp : Fingerprint) (u : UnknownData) (sw : ℚ × ℚ) : ℚ × ℚ :=
  if truthyStr u.confidence_level ∧ fp.confidence_levels ≠ [] then
    if counterHas fp.confidence_levels (u.confidence_level.getD "") then
      (sw.1 + ((counterGet fp.confidence_levels (u.confidence_level.getD "") : ℚ) /
        (fp.total_messages : ℚ)) * 0.15, sw.2 + 0.15)
    else sw
  else sw

/-- Sub-score block 5: risk-keyword overlap, weight 0.15.  The number of
fixed keywords present in both the lowercased risk text and the model's
keyword counter, divided by the size of that counter
(`len(fp['risk_keywords'])`), and skipped entirely when no keyword matches. -/
def riskStep (fp : Fingerprint) (u : UnknownData) (sw : ℚ × ℚ) : ℚ × ℚ :=
  if truthyStr u.risk_management ∧ fp.risk_keywords ≠ [] then
    let risk_text := lowerStr (u.risk_management.getD "")
    let keyword_matches :=
      (riskKeywordList.filter (fun kw =>
        containsSub kw.data risk_text.data && counterHas fp.risk_keywords kw)).length
    if keyword_matches ≠ 0 then
      (sw.1 + ((keyword_matches : ℚ) / (fp.risk_keywords.length : ℚ)) * 0.15, sw.2 + 0.15)
    else sw
  else sw

/-- The per-model loop body of `ModelIdentifier.match_unknown_message`: the
five conditionally weighted sub-score blocks run in source order on the
`(score, weights_sum)` accumulator, then the final normalization with its
explicit zero guard (`score / weights_sum if weights_sum > 0 else 0.0`). -/
def ModelIdentifier.model_score (fp : Fingerprint) (u : UnknownData) : ℚ :=
  let sw :=
    riskStep fp u (confidenceStep fp u (exitStep fp u (indicatorStep fp u
      (lengthStep fp u (0, 0)))))
  if sw.2 > 0 then sw.1 / sw.2 else 0

/-- Embedding of `ModelIdentifier.match_unknown_message`: the model with the
highest score, first maximum in dictionary order (`max` keeps the earlier
item on ties), or `("unknown", 0.0)` when there are no fingerprints. -/
def ModelIdentifier.match_unknown_message (fps : List (String × Fingerprint))
    (u : UnknownData) : String × ℚ :=
  let scores := fps.map (fun e => (e.1, ModelIdentifier.model_score e.2 u))
  match scores with
  | [] => ("unknown", 0)
  | s0 :: rest => rest.foldl (fun best c => if c.2 > best.2 then c else best) s0

/-! ## Concrete fixtures used by example claims and witnesses -/

/-- A message shape with fixed model name and chain of thought, used for the
concrete minute-boundary merge examples. -/
def exampleMessage (t : DateTime) : ModelMessage :=
  { model_name := "Gpt 5", timestamp := t, message_id := "id",
    user_prompt := "", market_data := [], chain_of_thought := "think",
    trading_decisions := [], account_value := none, total_return := none,
    sharpe_ratio := none, scraped_at := t }

def exampleNow : DateTime := ⟨2025, 11, 1, 0, 0, 0, 0⟩

/-- An extension row whose raw content resolves no section by either pattern
and whose `reasoning` column is NULL. -/
def exampleRow : ExtensionRow :=
  { id := 1, model_name := "gpt-5", timestamp := "2025-10-29T07:57:57",
    raw_content := none, reasoning := none, action := none, confidence := none,
    positions := none, market_data := none, message_hash := "abc123",
    scraped_at := "2025-10-29T08:00:00" }

/-- A snapshot string carrying a model name, a timestamp and a
chain-of-thought section. -/
def exampleSnapshot : String := "GPT 5 1/2 03:04:05 ▶CHAIN_OF_THOUGHT\nok"

/-- The message `extract_from_snapshot` produces from `exampleSnapshot`. -/
def exampleSnapshotMessage : ModelMessage :=
  { model_name := "Gpt 5", timestamp := ⟨2025, 1, 2, 3, 4, 5, 0⟩,
    message_id := "2025-11-01T00:00:00", user_prompt := "",
    market_data := [], chain_of_thought := "CHAIN_OF_THOUGHT\nok",
    trading_decisions := [], account_value := none, total_return := none,
    sharpe_ratio := none, scraped_at := exampleNow }

/-- The message the reader emits from `exampleRow`. -/
def exampleRowMessage : ModelMessage :=
  { model_name := "gpt-5", timestamp := ⟨2025, 10, 29, 7, 57, 57, 0⟩,
    message_id := "abc123",
    user_prompt := "Market data analysis at 2025-10-29T07:57:57",
    market_data := [], chain_of_thought := "", trading_decisions := [],
    account_value := none, total_return := none, sharpe_ratio := none,
    scraped_at := ⟨2025, 10, 29, 8, 0, 0, 0⟩ }

/-- A fingerprint whose risk-keyword counter holds a single keyword. -/
def fpRiskOnly : Fingerprint := ⟨[], [], [], [], [("risk", 2)], 1, none⟩

/-- An unknown record whose risk text contains that keyword. -/
def uRiskOnly : UnknownData := ⟨none, none, none, some "apply risk controls", ""⟩

/-- A single known-model join row, for fingerprint-building witnesses. -/
def exampleSRRow : SRRow :=
  ⟨1, "gpt-5", some ["RSI", "MACD"], some "stop_loss", some "high",
   some "tight stop loss risk", some "abcdefghij"⟩

/-- The fingerprint entry built from `exampleSRRow`. -/
def exampleFingerprint : Fingerprint :=
  { reasoning_lengths := [10], entry_indicators := [("RSI", 1), ("MACD", 1)],
    exit_types := [("stop_loss", 1)], confidence_levels := [("high", 1)],
    risk_keywords := [("stop loss", 1), ("risk", 1)], total_messages := 1,
    avg_length := some 10 }

/-- An unknown record with every sub-score input present. -/
def exampleUnknown : UnknownData :=
  ⟨some ["RSI", "EMA"], some "stop_loss", some "high",
   some "use stop loss and hedge", "abcdefghijklmno"⟩

/-! ## Invariant predicates -/

/-- Invariant of the `_deduplicate_messages` loop state: the `seen_keys` set
holds exactly the dictionary's keys, dictionary keys are distinct, and every
entry is stored under the dedup key of its message. -/
def MergeWF (st : MergeState) : Prop :=
  (∀ k, k ∈ st.seen_keys ↔ k ∈ st.unique_messages.map Prod.fst) ∧
  (st.unique_messages.map Prod.fst).Nodup ∧
  (∀ e ∈ st.unique_messages, e.1 = DataMerger.create_dedup_key e.2.1)

/-- Invariants of every fingerprint produced by `_build_fingerprints`: a
nonnegative mean length and per-key counts between 1 and the message total
for the two affinity counters. -/
def FingerprintWF (fp : Fingerprint) : Prop :=
  (∀ a, fp.avg_length = some a → 0 ≤ a) ∧
  (∀ e ∈ fp.exit_types, 1 ≤ e.2 ∧ e.2 ≤ fp.total_messages) ∧
  (∀ e ∈ fp.confidence_levels, 1 ≤ e.2 ∧ e.2 ≤ fp.total_messages)

/-! ## Helper lemmas -/

theorem digitChar_inj {a b : Nat} (ha : a < 10) (hb : b < 10) :
    digitChar a = digitChar b → a = b := by
  interval_cases a <;> interval_cases b <;> decide

theorem div_clamp (s w : ℚ) (h0 : 0 ≤ s) (h1 : s ≤ w) :
    0 ≤ (if w > 0 then s / w else 0) ∧ (if w > 0 then s / w else 0) ≤ 1 := by
  split
  · constructor
    · exact div_nonneg h0 (by linarith)
    · rw [div_le_one (by assumption)]; exact h1
  · exact ⟨le_refl 0, by norm_num⟩

/-- `isoformat` is injective on minute-floored valid datetimes. -/
theorem isoformat_floor_inj (t1 t2 : DateTime) (h1 : t1.valid) (h2 : t2.valid)
    (h : DateTime.isoformat t1.floorToMinute = DateTime.isoformat t2.floorToMinute) :
    t1.floorToMinute = t2.floorToMinute := by
  obtain ⟨hy1a, hy1b, hmo1a, hmo1b, hd1a, hd1b, hh1, hmi1, -, -⟩ := h1
  obtain ⟨hy2a, hy2b, hmo2a, hmo2b, hd2a, hd2b, hh2, hmi2, -, -⟩ := h2
  have hd1' : t1.day ≤ 31 := le_trans hd1b (by unfold daysInMonth; split <;> split <;> omega)
  have hd2' : t2.day ≤ 31 := le_trans hd2b (by unfold daysInMonth; split <;> split <;> omega)
  have h' := String.ext_iff.mp h
  simp only [DateTime.isoformat, DateTime.floorToMinute, pad4, pad2, pad6,
    List.cons_append, List.nil_append, List.cons.injEq, eq_self_iff_true,
    true_and, and_true] at h'
  obtain ⟨ey3, ey2, ey1, ey0, emo1, emo0, ed1, ed0, eh1, eh0, emi1, emi0⟩ := h' 
  have y3 := digitChar_inj (by omega) (by omega) ey3
  have y2 := digitChar_inj (by omega) (by omega) ey2
  have y1 := digitChar_inj (by omega) (by omega) ey1
  have y0 := digitChar_inj (by omega) (by omega) ey0
  have mo1 := digitChar_inj (by omega) (by omega) emo1
  have mo0 := digitChar_inj (by omega) (by omega) emo0
  have d1 := digitChar_inj (by omega) (by omega) ed1
  have d0 := digitChar_inj (by omega) (by omega) ed0
  have hh1' := digitChar_inj (by omega) (by omega) eh1
  have hh0' := digitChar_inj (by omega) (by omega) eh0
  have mi1 := digitChar_inj (by omega) (by omega) emi1
  have mi0 := digitChar_inj (by omega) (by omega) emi0
  simp only [DateTime.floorToMinute, DateTime.mk.injEq]
  refine ⟨by omega, by omega, by omega, by omega, by omega, trivial, trivial⟩

/-! ## Dedup key equality -/

/-- Unfolding equation for `DataMerger.create_dedup_key`. -/
theorem create_dedup_key_def (m : ModelMessage) :
    DataMerger.create_dedup_key m =
      m.model_name ++ ":" ++ strTake (sha256Hex m.chain_of_thought) 16 ++ ":" ++
        m.timestamp.floorToMinute.isoformat := rfl

/-- For messages with equal model name and chain of thought, dedup keys agree
exactly on minute-floored timestamps (for valid timestamps). -/
theorem create_dedup_key_eq_iff (m1 m2 : ModelMessage)
    (hv1 : m1.timestamp.valid) (hv2 : m2.timestamp.valid)
    (hm : m1.model_name = m2.model_name)
    (hc : m1.chain_of_thought = m2.chain_of_thought) :
    DataMerger.create_dedup_key m1 = DataMerger.create_dedup_key m2 ↔
      m1.timestamp.floorToMinute = m2.timestamp.floorToMinute := by
  constructor
  · intro h
    rw [create_dedup_key_def, create_dedup_key_def, hm, hc] at h
    have h' := String.ext_iff.mp h
    simp only [String.data_append, List.append_assoc] at h'
    have h2 := List.append_cancel_left (List.append_cancel_left
      (List.append_cancel_left (List.append_cancel_left h')))
    exact isoformat_floor_inj _ _ hv1 hv2 (String.ext h2)
  · intro h
    rw [create_dedup_key_def, create_dedup_key_def, hm, hc, h]

/-! ## Merge loop lemmas -/

theorem replace_map_fst (key : String) (m : ModelMessage) (src : String)
    (l : List (String × ModelMessage × String)) :
    (l.map (fun e => if e.1 = key then (key, m, src) else e)).map Prod.fst =
      l.map Prod.fst := by
  rw [List.map_map]
  apply List.map_congr_left
  intro e he
  simp only [Function.comp_apply]
  split <;> simp_all

theorem mergeInsert_map_fst (ps : String) (st : MergeState) (m : ModelMessage) (src : String) :
    (mergeInsert ps st m src).unique_messages.map Prod.fst =
      if DataMerger.create_dedup_key m ∈ st.seen_keys then
        st.unique_messages.map Prod.fst
      else st.unique_messages.map Prod.fst ++ [DataMerger.create_dedup_key m] := by
  simp only [mergeInsert]
  by_cases hk : DataMerger.create_dedup_key m ∈ st.seen_keys
  · rw [if_pos hk, if_pos hk]
    by_cases hs : src = ps
    · rw [if_pos hs]
      exact replace_map_fst _ _ _ _
    · rw [if_neg hs]
  · rw [if_neg hk, if_neg hk]
    simp

theorem mergeInsert_wf {ps : String} {st : MergeState} {m : ModelMessage} {src : String}
    (h : MergeWF st) : MergeWF (mergeInsert ps st m src) := by
  obtain ⟨hseen, hnd, hkey⟩ := h
  simp only [mergeInsert]
  by_cases hk : DataMerger.create_dedup_key m ∈ st.seen_keys
  · rw [if_pos hk]
    by_cases hs : src = ps
    · rw [if_pos hs]
      refine ⟨?_, ?_, ?_⟩
      · intro k
        rw [hseen k]
        simp only
        rw [replace_map_fst]
      · simp only
        rw [replace_map_fst]
        exact hnd
      · intro e he
        simp only [List.mem_map] at he
        obtain ⟨e', he', rfl⟩ := he
        split
        · rfl
        · exact hkey e' he'
    · rw [if_neg hs]
      exact ⟨hseen, hnd, hkey⟩
  · rw [if_neg hk]
    refine ⟨?_, ?_, ?_⟩
    · intro k
      simp only [List.map_append, List.map_cons, List.map_nil, List.mem_append,
        List.mem_singleton, hseen k]
    · simp only [List.map_append, List.map_cons, List.map_nil, List.nodup_append]
      refine ⟨hnd, List.nodup_singleton _, ?_⟩
      intro x hx hx'
      simp only [List.mem_singleton] at hx'
      subst hx'
      exact hk ((hseen _).mpr hx)
    · intro e he
      simp only [List.mem_append, List.mem_singleton] at he
      rcases he with he | he
      · exact hkey e he
      · subst he; rfl

theorem mergeInsert_length (ps : String) (st : MergeState) (m : ModelMessage) (src : String) :
    (mergeInsert ps st m src).unique_messages.length ≤ st.unique_messages.length + 1 := by
  simp only [mergeInsert]
  by_cases hk : DataMerger.create_dedup_key m ∈ st.seen_keys
  · rw [if_pos hk]
    by_cases hs : src = ps
    · rw [if_pos hs]; simp
    · rw [if_neg hs]; simp
  · rw [if_neg hk]; simp

theorem mergeInsert_values (ps : String) (st : MergeState) (m : ModelMessage) (src : String) :
    ∀ e ∈ (mergeInsert ps st m src).unique_messages,
      e ∈ st.unique_messages ∨ e.2.1 = m := by
  simp only [mergeInsert]
  by_cases hk : DataMerger.create_dedup_key m ∈ st.seen_keys
  · rw [if_pos hk]
    by_cases hs : src = ps
    · rw [if_pos hs]
      intro e he
      simp only [List.mem_map] at he
      obtain ⟨e', he', rfl⟩ := he
      split
      · right; rfl
      · left; exact he'
    · rw [if_neg hs]
      intro e he; left; exact he
  · rw [if_neg hk]
    intro e he
    simp only [List.mem_append, List.mem_singleton] at he
    rcases he with he | he
    · left; exact he
    · right; subst he; rfl

theorem find?_map_replace (key : String) (m : ModelMessage) (src : String)
    (l : List (String × ModelMessage × String)) (hmem : key ∈ l.map Prod.fst) :
    (l.map (fun e => if e.1 = key then (key, m, src) else e)).find?
      (fun e => e.1 = key) = some (key, m, src) := by
  induction l with
  | nil => simp at hmem
  | cons e rest ih =>
      simp only [List.map_cons]
      by_cases he : e.1 = key
      · rw [if_pos he]
        simp
      · rw [if_neg he]
        rw [List.find?_cons_of_neg]
        · apply ih
          simp only [List.map_cons, List.mem_cons] at hmem
          rcases hmem with hmem | hmem
          · exact absurd hmem.symm he
          · exact hmem
        · simp [he]

theorem find?_map_replace_other (key k : String) (m : ModelMessage) (src : String)
    (hk : key ≠ k) (l : List (String × ModelMessage × String)) :
    (l.map (fun e => if e.1 = key then (key, m, src) else e)).find?
      (fun e => e.1 = k) = l.find? (fun e => e.1 = k) := by
  induction l with
  | nil => rfl
  | cons e rest ih =>
      simp only [List.map_cons]
      by_cases he : e.1 = key
      · rw [if_pos he]
        rw [List.find?_cons_of_neg _ (by simp [hk]), List.find?_cons_of_neg _ (by simp [he, hk])]
        exact ih
      · rw [if_neg he]
        by_cases hek : e.1 = k
        · rw [List.find?_cons_of_pos _ (by simp [hek]), List.find?_cons_of_pos _ (by simp [hek])]
        · rw [List.find?_cons_of_neg _ (by simp [hek]), List.find?_cons_of_neg _ (by simp [hek])]
          exact ih

/-- After a priority-source insertion, the dictionary holds the inserted
message at its key. -/
theorem mergeInsert_lookup_self {ps : String} {st : MergeState} (m : ModelMessage)
    {src : String} (hwf : MergeWF st) (hsrc : src = ps) :
    (mergeInsert ps st m src).unique_messages.find?
        (fun e => e.1 = DataMerger.create_dedup_key m) =
      some (DataMerger.create_dedup_key m, m, src) := by
  obtain ⟨hseen, hnd, hkey⟩ := hwf
  simp only [mergeInsert]
  by_cases hk : DataMerger.create_dedup_key m ∈ st.seen_keys
  · rw [if_pos hk, if_pos hsrc]
    exact find?_map_replace _ _ _ _ ((hseen _).mp hk)
  · rw [if_neg hk]
    simp only [List.find?_append]
    have hnone : st.unique_messages.find? (fun e => e.1 = DataMerger.create_dedup_key m) = none := by
      rw [List.find?_eq_none]
      intro x hx hpx
      apply hk
      rw [hseen]
      simp only [decide_eq_true_eq] at hpx
      exact hpx ▸ List.mem_map_of_mem Prod.fst hx
    rw [hnone]
    simp

/-- Insertion leaves the dictionary unchanged at every other key. -/
theorem mergeInsert_lookup_other {ps : String} {st : MergeState} {m : ModelMessage}
    {src : String} {k : String} (hk : DataMerger.create_dedup_key m ≠ k) :
    (mergeInsert ps st m src).unique_messages.find? (fun e => e.1 = k) =
      st.unique_messages.find? (fun e => e.1 = k) := by
  simp only [mergeInsert]
  by_cases hseen : DataMerger.create_dedup_key m ∈ st.seen_keys
  · rw [if_pos hseen]
    by_cases hs : src = ps
    · rw [if_pos hs]
      exact find?_map_replace_other _ _ _ _ hk _
    · rw [if_neg hs]
  · rw [if_neg hseen]
    simp only [List.find?_append]
    have : List.find? (fun e => e.1 = k) [(DataMerger.create_dedup_key m, m, src)] = none := by
      simp [hk]
    rw [this]
    cases st.unique_messages.find? (fun e => e.1 = k) <;> rfl

/-- A non-priority insertion never displaces an existing dictionary entry. -/
theorem mergeInsert_lookup_nonpriority {ps : String} {st : MergeState} {m : ModelMessage}
    {src : String} {k : String} {e : String × ModelMessage × String}
    (hwf : MergeWF st) (hsrc : src ≠ ps)
    (hfind : st.unique_messages.find? (fun x => x.1 = k) = some e) :
    (mergeInsert ps st m src).unique_messages.find? (fun x => x.1 = k) = some e := by
  by_cases hk : DataMerger.create_dedup_key m = k
  · subst hk
    obtain ⟨hseen, hnd, hkey⟩ := hwf
    simp only [mergeInsert]
    have hmem : DataMerger.create_dedup_key m ∈ st.seen_keys := by
      rw [hseen]
      have := List.mem_of_find?_eq_some hfind
      have hp := List.find?_some hfind
      simp only [decide_eq_true_eq] at hp
      exact hp ▸ List.mem_map_of_mem Prod.fst this
    rw [if_pos hmem, if_neg hsrc]
    exact hfind
  · rw [mergeInsert_lookup_other hk]
    exact hfind

theorem processMessages_wf {ps : String} {src : String} (msgs : List ModelMessage)
    {st : MergeState} (hwf : MergeWF st) : MergeWF (processMessages ps st msgs src) := by
  induction msgs generalizing st with
  | nil => exact hwf
  | cons m rest ih => exact ih (mergeInsert_wf hwf)

theorem processMessages_keys_mem {ps src : String} (msgs : List ModelMessage)
    {st : MergeState} (hwf : MergeWF st) (k : String) :
    k ∈ (processMessages ps st msgs src).unique_messages.map Prod.fst ↔
      k ∈ st.unique_messages.map Prod.fst ∨
        k ∈ msgs.map DataMerger.create_dedup_key := by
  induction msgs generalizing st with
  | nil => simp [processMessages]
  | cons m rest ih =>
      have hstep : processMessages ps st (m :: rest) src =
          processMessages ps (mergeInsert ps st m src) rest src := rfl
      rw [hstep, ih (mergeInsert_wf hwf)]
      rw [mergeInsert_map_fst]
      by_cases hk : DataMerger.create_dedup_key m ∈ st.seen_keys
      · rw [if_pos hk]
        have : DataMerger.create_dedup_key m ∈ st.unique_messages.map Prod.fst :=
          (hwf.1 _).mp hk
        simp only [List.map_cons, List.mem_cons]
        constructor
        · rintro (h | h)
          · exact Or.inl h
          · exact Or.inr (Or.inr h)
        · rintro (h | h | h)
          · exact Or.inl h
          · exact Or.inl (h ▸ this)
          · exact Or.inr h
      · rw [if_neg hk]
        simp only [List.mem_append, List.mem_singleton, List.map_cons, List.mem_cons]
        tauto

theorem processMessages_length {ps src : String} (msgs : List ModelMessage)
    (st : MergeState) :
    (processMessages ps st msgs src).unique_messages.length ≤
      st.unique_messages.length + msgs.length := by
  induction msgs generalizing st with
  | nil => simp [processMessages]
  | cons m rest ih =>
      have hstep : processMessages ps st (m :: rest) src =
          processMessages ps (mergeInsert ps st m src) rest src := rfl
      rw [hstep]
      calc (processMessages ps (mergeInsert ps st m src) rest src).unique_messages.length
          ≤ (mergeInsert ps st m src).unique_messages.length + rest.length := ih _
        _ ≤ st.unique_messages.length + 1 + rest.length := by
            have := mergeInsert_length ps st m src
            omega
        _ = st.unique_messages.length + (m :: rest).length := by simp; omega

theorem processMessages_values {ps src : String} (msgs : List ModelMessage)
    (st : MergeState) :
    ∀ e ∈ (processMessages ps st msgs src).unique_messages,
      e ∈ st.unique_messages ∨ e.2.1 ∈ msgs := by
  induction msgs generalizing st with
  | nil => intro e he; exact Or.inl he
  | cons m rest ih =>
      intro e he
      have hstep : processMessages ps st (m :: rest) src =
          processMessages ps (mergeInsert ps st m src) rest src := rfl
      rw [hstep] at he
      rcases ih (mergeInsert ps st m src) e he with h | h
      · rcases mergeInsert_values ps st m src e h with h' | h'
        · exact Or.inl h'
        · exact Or.inr (h' ▸ List.mem_cons_self m rest)
      · exact Or.inr (List.mem_cons_of_mem m h)

theorem processMessages_lookup_nokey {ps src : String} (msgs : List ModelMessage)
    {st : MergeState} {k : String}
    (hnone : ∀ r ∈ msgs, DataMerger.create_dedup_key r ≠ k) :
    (processMessages ps st msgs src).unique_messages.find? (fun e => e.1 = k) =
      st.unique_messages.find? (fun e => e.1 = k) := by
  induction msgs generalizing st with
  | nil => rfl
  | cons m rest ih =>
      have hstep : processMessages ps st (m :: rest) src =
          processMessages ps (mergeInsert ps st m src) rest src := rfl
      rw [hstep, ih (fun r hr => hnone r (List.mem_cons_of_mem m hr))]
      exact mergeInsert_lookup_other (hnone m (List.mem_cons_self m rest))

/-- After processing the priority source, every key observed in it maps to
one of its own messages with that key. -/
theorem processMessages_lookup_priority {ps : String} (msgs : List ModelMessage)
    {st : MergeState} (hwf : MergeWF st) {k : String}
    (hex : ∃ r ∈ msgs, DataMerger.create_dedup_key r = k) :
    ∃ m, m ∈ msgs ∧ DataMerger.create_dedup_key m = k ∧
      (processMessages ps st msgs ps).unique_messages.find? (fun e => e.1 = k) =
        some (k, m, ps) := by
  induction msgs generalizing st with
  | nil => simp at hex
  | cons m rest ih =>
      have hstep : processMessages ps st (m :: rest) ps =
          processMessages ps (mergeInsert ps st m ps) rest ps := rfl
      by_cases hrest : ∃ r ∈ rest, DataMerger.create_dedup_key r = k
      · obtain ⟨m', hm', hkm', hfind⟩ := ih (mergeInsert_wf hwf) hrest
        exact ⟨m', List.mem_cons_of_mem m hm', hkm', by rw [hstep]; exact hfind⟩
      · obtain ⟨r, hr, hkr⟩ := hex
        have hrm : r = m := by
          rcases List.mem_cons.mp hr with h | h
          · exact h
          · exact absurd ⟨r, h, hkr⟩ hrest
        subst hrm
        refine ⟨r, List.mem_cons_self r rest, hkr, ?_⟩
        rw [hstep]
        rw [processMessages_lookup_nokey rest (fun r' hr' => fun hc => hrest ⟨r', hr', hc⟩)]
        rw [← hkr]
        exact mergeInsert_lookup_self r hwf rfl

/-- Processing the non-priority source preserves every existing dictionary
entry. -/
theorem processMessages_lookup_nonpriority {ps src : String} (msgs : List ModelMessage)
    {st : MergeState} (hwf : MergeWF st) (hsrc : src ≠ ps) {k : String}
    {e : String × ModelMessage × String}
    (hfind : st.unique_messages.find? (fun x => x.1 = k) = some e) :
    (processMessages ps st msgs src).unique_messages.find? (fun x => x.1 = k) = some e := by
  induction msgs generalizing st with
  | nil => exact hfind
  | cons m rest ih =>
      have hstep : processMessages ps st (m :: rest) src =
          processMessages ps (mergeInsert ps st m src) rest src := rfl
      rw [hstep]
      exact ih (mergeInsert_wf hwf) (mergeInsert_lookup_nonpriority hwf hsrc hfind)

theorem mergeWF_empty : MergeWF ⟨[], []⟩ :=
  ⟨fun k => by simp, by simp, by simp⟩

theorem dedup_eq_of_ext (ext pw : List ModelMessage) {ps : String} (h : ps = "extension") :
    DataMerger.deduplicate_messages ext pw ps =
      ((processMessages ps (processMessages ps ⟨[], []⟩ ext "extension") pw
        "playwright").unique_messages.map (fun e => e.2.1)).mergeSort
        (fun a b => DateTime.lexLe b.timestamp a.timestamp) := by
  unfold DataMerger.deduplicate_messages
  rw [if_pos h]
  rfl

theorem dedup_eq_of_nonext (ext pw : List ModelMessage) {ps : String} (h : ¬ps = "extension") :
    DataMerger.deduplicate_messages ext pw ps =
      ((processMessages ps (processMessages ps ⟨[], []⟩ pw "playwright") ext
        "extension").unique_messages.map (fun e => e.2.1)).mergeSort
        (fun a b => DateTime.lexLe b.timestamp a.timestamp) := by
  unfold DataMerger.deduplicate_messages
  rw [if_neg h]
  rfl

/-- The merged output has exactly one record per distinct dedup key of the
processed inputs. -/
theorem dedup_length (ext pw : List ModelMessage) (ps : String) :
    (DataMerger.deduplicate_messages ext pw ps).length =
      ((ext ++ pw).map DataMerger.create_dedup_key).toFinset.card := by
  by_cases hps : ps = "extension"
  · rw [dedup_eq_of_ext ext pw hps]
    have hwf1 : MergeWF (processMessages ps ⟨[], []⟩ ext "extension") :=
      processMessages_wf ext mergeWF_empty
    have hwf2 : MergeWF (processMessages ps (processMessages ps ⟨[], []⟩ ext "extension")
        pw "playwright") := processMessages_wf pw hwf1
    have hmem : ∀ k, k ∈ (processMessages ps (processMessages ps ⟨[], []⟩ ext "extension")
        pw "playwright").unique_messages.map Prod.fst ↔
        k ∈ (ext ++ pw).map DataMerger.create_dedup_key := by
      intro k
      rw [processMessages_keys_mem pw hwf1, processMessages_keys_mem ext mergeWF_empty]
      simp only [List.map_nil, List.not_mem_nil, false_or, List.map_append, List.mem_append]
    rw [(List.mergeSort_perm _ _).length_eq, List.length_map]
    have hnd := hwf2.2.1
    have hcard := List.toFinset_card_of_nodup hnd
    have hset : ((processMessages ps (processMessages ps ⟨[], []⟩ ext "extension")
        pw "playwright").unique_messages.map Prod.fst).toFinset =
        ((ext ++ pw).map DataMerger.create_dedup_key).toFinset := by
      apply Finset.ext
      intro x
      simp only [List.mem_toFinset]
      exact hmem x
    rw [← hset, hcard, List.length_map]
  · rw [dedup_eq_of_nonext ext pw hps]
    have hwf1 : MergeWF (processMessages ps ⟨[], []⟩ pw "playwright") :=
      processMessages_wf pw mergeWF_empty
    have hwf2 : MergeWF (processMessages ps (processMessages ps ⟨[], []⟩ pw "playwright")
        ext "extension") := processMessages_wf ext hwf1
    have hmem : ∀ k, k ∈ (processMessages ps (processMessages ps ⟨[], []⟩ pw "playwright")
        ext "extension").unique_messages.map Prod.fst ↔
        k ∈ (ext ++ pw).map DataMerger.create_dedup_key := by
      intro k
      rw [processMessages_keys_mem ext hwf1, processMessages_keys_mem pw mergeWF_empty]
      simp only [List.map_nil, List.not_mem_nil, false_or, List.map_append, List.mem_append]
      tauto
    rw [(List.mergeSort_perm _ _).length_eq, List.length_map]
    have hnd := hwf2.2.1
    have hcard := List.toFinset_card_of_nodup hnd
    have hset : ((processMessages ps (processMessages ps ⟨[], []⟩ pw "playwright")
        ext "extension").unique_messages.map Prod.fst).toFinset =
        ((ext ++ pw).map DataMerger.create_dedup_key).toFinset := by
      apply Finset.ext
      intro x
      simp only [List.mem_toFinset]
      exact hmem x
    rw [← hset, hcard, List.length_map]

/-! ## Claim theorems: merge engine -/

/-- C4: merging any corpus with itself as both sources yields a unique count
equal to the corpus's distinct-dedup-key count; the reported
`duplicates_removed` equals `count(A) + count(B) - unique`; hence it equals
`len(corpus)` exactly when the corpus has no duplicate keys. -/
theorem C4_self_merge_statistics :
    ∀ (corpus : List ModelMessage) (ps : String),
      (DataMerger.deduplicate_messages corpus corpus ps).length =
        (corpus.map DataMerger.create_dedup_key).toFinset.card ∧
      DataMerger.duplicates_removed corpus corpus =
        (corpus.length : ℤ) + (corpus.length : ℤ) -
          ((corpus.map DataMerger.create_dedup_key).toFinset.card : ℤ) ∧
      ((corpus.map DataMerger.create_dedup_key).Nodup →
        DataMerger.duplicates_removed corpus corpus = (corpus.length : ℤ)) := by
  intro corpus ps
  have hdup : ((corpus ++ corpus).map DataMerger.create_dedup_key).toFinset =
      (corpus.map DataMerger.create_dedup_key).toFinset := by
    rw [List.map_append, List.toFinset_append, Finset.union_self]
  have h1 : ∀ q : String, (DataMerger.deduplicate_messages corpus corpus q).length =
      (corpus.map DataMerger.create_dedup_key).toFinset.card := by
    intro q
    rw [dedup_length, hdup]
  refine ⟨h1 ps, ?_, ?_⟩
  · unfold DataMerger.duplicates_removed
    rw [h1 "extension"]
  · intro hnd
    unfold DataMerger.duplicates_removed
    rw [h1 "extension"]
    rw [List.toFinset_card_of_nodup hnd, List.length_map]
    omega

/-- C10: every merged message is, unchanged, an element of one of the two
input collections, and the output length never exceeds the sum of the input
lengths. -/
theorem C10_output_within_inputs :
    ∀ (ext pw : List ModelMessage) (ps : String),
      (∀ m ∈ DataMerger.deduplicate_messages ext pw ps, m ∈ ext ++ pw) ∧
      (DataMerger.deduplicate_messages ext pw ps).length ≤ ext.length + pw.length := by
  intro ext pw ps
  by_cases hps : ps = "extension"
  · rw [dedup_eq_of_ext ext pw hps]
    constructor
    · intro m hm
      rw [(List.mergeSort_perm _ _).mem_iff] at hm
      simp only [List.mem_map] at hm
      obtain ⟨e, he, rfl⟩ := hm
      rcases processMessages_values pw _ e he with h | h
      · rcases processMessages_values ext _ e h with h' | h'
        · simp at h'
        · exact List.mem_append.mpr (Or.inl h')
      · exact List.mem_append.mpr (Or.inr h)
    · rw [(List.mergeSort_perm _ _).length_eq, List.length_map]
      have h2 := @processMessages_length ps "playwright" pw
        (processMessages ps ⟨[], []⟩ ext "extension")
      have h1 := @processMessages_length ps "extension" ext ⟨[], []⟩
      simp only [List.length_nil] at h1
      omega
  · rw [dedup_eq_of_nonext ext pw hps]
    constructor
    · intro m hm
      rw [(List.mergeSort_perm _ _).mem_iff] at hm
      simp only [List.mem_map] at hm
      obtain ⟨e, he, rfl⟩ := hm
      rcases processMessages_values ext _ e he with h | h
      · rcases processMessages_values pw _ e h with h' | h'
        · simp at h'
        · exact List.mem_append.mpr (Or.inr h')
      · exact List.mem_append.mpr (Or.inl h)
    · rw [(List.mergeSort_perm _ _).length_eq, List.length_map]
      have h2 := @processMessages_length ps "extension" ext
        (processMessages ps ⟨[], []⟩ pw "playwright")
      have h1 := @processMessages_length ps "playwright" pw ⟨[], []⟩
      simp only [List.length_nil] at h1
      omega

/-- C2: for messages with equal model name and equal chain of thought, dedup
keys are equal exactly when minute-floored timestamps are equal; records at
10:15:03 / 10:15:47 merge into one output record, records at 10:15:59 /
10:16:01 remain two. -/
theorem C2_dedup_key_minute_floor :
    (∀ m1 m2 : ModelMessage, m1.timestamp.valid → m2.timestamp.valid →
      m1.model_name = m2.model_name → m1.chain_of_thought = m2.chain_of_thought →
      (DataMerger.create_dedup_key m1 = DataMerger.create_dedup_key m2 ↔
        m1.timestamp.floorToMinute = m2.timestamp.floorToMinute)) ∧
    (DataMerger.deduplicate_messages [exampleMessage ⟨2025, 10, 29, 10, 15, 3, 0⟩]
      [exampleMessage ⟨2025, 10, 29, 10, 15, 47, 0⟩] "extension").length = 1 ∧
    (DataMerger.deduplicate_messages [exampleMessage ⟨2025, 10, 29, 10, 15, 59, 0⟩]
      [exampleMessage ⟨2025, 10, 29, 10, 16, 1, 0⟩] "extension").length = 2 := by
  refine ⟨fun m1 m2 hv1 hv2 hm hc => create_dedup_key_eq_iff m1 m2 hv1 hv2 hm hc, ?_, ?_⟩
  · rw [dedup_length]
    have hkey : DataMerger.create_dedup_key (exampleMessage ⟨2025, 10, 29, 10, 15, 3, 0⟩) =
        DataMerger.create_dedup_key (exampleMessage ⟨2025, 10, 29, 10, 15, 47, 0⟩) :=
      (create_dedup_key_eq_iff _ _ (by decide) (by decide) rfl rfl).mpr (by decide)
    simp [hkey]
  · rw [dedup_length]
    have hne : DataMerger.create_dedup_key (exampleMessage ⟨2025, 10, 29, 10, 15, 59, 0⟩) ≠
        DataMerger.create_dedup_key (exampleMessage ⟨2025, 10, 29, 10, 16, 1, 0⟩) := by
      intro h
      have h2 := (create_dedup_key_eq_iff
        (exampleMessage ⟨2025, 10, 29, 10, 15, 59, 0⟩)
        (exampleMessage ⟨2025, 10, 29, 10, 16, 1, 0⟩)
        (by decide) (by decide) rfl rfl).mp h
      revert h2
      decide
    simp only [List.cons_append, List.nil_append, List.map_cons, List.map_nil,
      List.toFinset_cons, List.toFinset_nil, insert_emptyc_eq]
    exact Finset.card_pair hne

/-- C2 witness: the key-equality criterion applied at two concrete valid
messages in the same minute. -/
theorem C2_dedup_key_minute_floor_witness :
    DataMerger.create_dedup_key (exampleMessage ⟨2025, 10, 29, 10, 15, 3, 0⟩) =
        DataMerger.create_dedup_key (exampleMessage ⟨2025, 10, 29, 10, 15, 47, 0⟩) ↔
      (exampleMessage ⟨2025, 10, 29, 10, 15, 3, 0⟩).timestamp.floorToMinute =
        (exampleMessage ⟨2025, 10, 29, 10, 15, 47, 0⟩).timestamp.floorToMinute :=
  C2_dedup_key_minute_floor.1 _ _ (by decide) (by decide) rfl rfl

/-- C3: whichever source is the priority source, a priority-source record
that is the unique holder of its dedup key within the priority source always
survives into the merged output unchanged (in particular it beats any
non-priority record sharing its key, whatever that record's contents), and
the output holds one record per key. -/
theorem C3_priority_source_wins :
    ∀ (ext pw : List ModelMessage) (ps : String) (r : ModelMessage),
      ps = "extension" ∨ ps = "playwright" →
      r ∈ (if ps = "extension" then ext else pw) →
      (∀ r' ∈ (if ps = "extension" then ext else pw),
        DataMerger.create_dedup_key r' = DataMerger.create_dedup_key r → r' = r) →
      r ∈ DataMerger.deduplicate_messages ext pw ps ∧
        ((DataMerger.deduplicate_messages ext pw ps).map
          DataMerger.create_dedup_key).Nodup := by
  intro ext pw ps r hps hr huniq
  have hout_nodup : ∀ (a b : List ModelMessage) (s1 s2 : String),
      (((processMessages ps (processMessages ps ⟨[], []⟩ a s1) b
        s2).unique_messages.map (fun e => e.2.1)).mergeSort
        (fun x y => DateTime.lexLe y.timestamp x.timestamp)).map
          DataMerger.create_dedup_key |>.Nodup := by
    intro a b s1 s2
    have hwf : MergeWF (processMessages ps (processMessages ps ⟨[], []⟩ a s1) b s2) :=
      processMessages_wf b (processMessages_wf a mergeWF_empty)
    have hmapeq : (processMessages ps (processMessages ps ⟨[], []⟩ a s1)
        b s2).unique_messages.map (fun e => DataMerger.create_dedup_key e.2.1) =
        (processMessages ps (processMessages ps ⟨[], []⟩ a s1)
          b s2).unique_messages.map Prod.fst := by
      apply List.map_congr_left
      intro e he
      exact (hwf.2.2 e he).symm
    have hperm : ((((processMessages ps (processMessages ps ⟨[], []⟩ a s1) b
        s2).unique_messages.map (fun e => e.2.1)).mergeSort
        (fun x y => DateTime.lexLe y.timestamp x.timestamp)).map
          DataMerger.create_dedup_key).Perm
        (((processMessages ps (processMessages ps ⟨[], []⟩ a s1) b
          s2).unique_messages.map (fun e => e.2.1)).map DataMerger.create_dedup_key) :=
      (List.mergeSort_perm _ _).map _
    rw [hperm.nodup_iff]
    rw [List.map_map]
    have : (fun e => e.2.1 : String × ModelMessage × String → ModelMessage) =
        (fun e => e.2.1) := rfl
    rw [show DataMerger.create_dedup_key ∘ (fun e => e.2.1 :
        String × ModelMessage × String → ModelMessage) =
      (fun e => DataMerger.create_dedup_key e.2.1) from rfl]
    rw [hmapeq]
    exact hwf.2.1
  rcases hps with hps | hps
  · subst hps
    rw [if_pos rfl] at hr huniq
    have hwf1 : MergeWF (processMessages "extension" ⟨[], []⟩ ext "extension") :=
      processMessages_wf ext mergeWF_empty
    obtain ⟨m, hm, hkm, hfind⟩ := processMessages_lookup_priority ext mergeWF_empty
      ⟨r, hr, rfl⟩
    have hmr : m = r := huniq m hm hkm
    subst hmr
    have hfind2 := processMessages_lookup_nonpriority pw hwf1
      (show ("playwright" : String) ≠ "extension" by decide) hfind
    have hmem := List.mem_of_find?_eq_some hfind2
    constructor
    · rw [dedup_eq_of_ext ext pw rfl]
      rw [(List.mergeSort_perm _ _).mem_iff]
      exact List.mem_map.mpr ⟨_, hmem, rfl⟩
    · rw [dedup_eq_of_ext ext pw rfl]
      exact hout_nodup ext pw "extension" "playwright"
  · subst hps
    rw [if_neg (by decide)] at hr huniq
    have hwf1 : MergeWF (processMessages "playwright" ⟨[], []⟩ pw "playwright") :=
      processMessages_wf pw mergeWF_empty
    obtain ⟨m, hm, hkm, hfind⟩ := processMessages_lookup_priority pw mergeWF_empty
      ⟨r, hr, rfl⟩
    have hmr : m = r := huniq m hm hkm
    subst hmr
    have hfind2 := processMessages_lookup_nonpriority ext hwf1
      (show ("extension" : String) ≠ "playwright" by decide) hfind
    have hmem := List.mem_of_find?_eq_some hfind2
    constructor
    · rw [dedup_eq_of_nonext ext pw (by decide)]
      rw [(List.mergeSort_perm _ _).mem_iff]
      exact List.mem_map.mpr ⟨_, hmem, rfl⟩
    · rw [dedup_eq_of_nonext ext pw (by decide)]
      exact hout_nodup pw ext "playwright" "extension"

/-- C3 witness: the priority record with user prompt "A" survives a merge
against a same-key record with user prompt "B", for both priority choices. -/
theorem C3_priority_source_wins_witness :
    { exampleMessage ⟨2025, 10, 29, 10, 15, 3, 0⟩ with user_prompt := "A" } ∈
      DataMerger.deduplicate_messages
        [{ exampleMessage ⟨2025, 10, 29, 10, 15, 3, 0⟩ with user_prompt := "A" }]
        [{ exampleMessage ⟨2025, 10, 29, 10, 15, 3, 0⟩ with user_prompt := "B" }]
        "extension" :=
  (C3_priority_source_wins
    [{ exampleMessage ⟨2025, 10, 29, 10, 15, 3, 0⟩ with user_prompt := "A" }]
    [{ exampleMessage ⟨2025, 10, 29, 10, 15, 3, 0⟩ with user_prompt := "B" }]
    "extension"
    { exampleMessage ⟨2025, 10, 29, 10, 15, 3, 0⟩ with user_prompt := "A" }
    (Or.inl rfl)
    (by simp)
    (by
      intro r' hr' _
      simpa using hr')).1

/-- C4 witness: self-merging a one-message corpus with no duplicate keys
removes exactly one record. -/
theorem C4_self_merge_statistics_witness :
    DataMerger.duplicates_removed [exampleMessage ⟨2025, 10, 29, 10, 15, 3, 0⟩]
      [exampleMessage ⟨2025, 10, 29, 10, 15, 3, 0⟩] = 1 := by
  have h := (C4_self_merge_statistics [exampleMessage ⟨2025, 10, 29, 10, 15, 3, 0⟩]
    "extension").2.2 (by simp)
  simpa using h

/-- C10 witness: the containment and length bound at a concrete merge. -/
theorem C10_output_within_inputs_witness :
    (∀ m ∈ DataMerger.deduplicate_messages [exampleMessage ⟨2025, 10, 29, 10, 15, 3, 0⟩]
        [] "extension", m ∈ [exampleMessage ⟨2025, 10, 29, 10, 15, 3, 0⟩] ++ []) ∧
    (DataMerger.deduplicate_messages [exampleMessage ⟨2025, 10, 29, 10, 15, 3, 0⟩]
        [] "extension").length ≤
      [exampleMessage ⟨2025, 10, 29, 10, 15, 3, 0⟩].length + ([] : List ModelMessage).length :=
  C10_output_within_inputs [exampleMessage ⟨2025, 10, 29, 10, 15, 3, 0⟩] [] "extension"

/-! ## Claim theorems: chain-of-thought mandatory section -/

/-- C1 counterexample: a row whose raw content resolves no chain-of-thought
section by either pattern and whose `reasoning` column is NULL is not
discarded — the reader emits a message whose `chain_of_thought` is the empty
string. -/
theorem C1_counterexample :
    (ExtensionDataReader.row_to_model_message exampleNow exampleRow).map
      ModelMessage.chain_of_thought = some "" := by
  decide

/-- C1 amended: the Playwright snapshot extractor discards any message whose
chain-of-thought section is unresolved and never emits an empty
`chain_of_thought`; the SQLite reader instead falls back to the row's
`reasoning` column (else the raw content, else the empty string) and can
emit the message anyway. -/
theorem C1_chain_gate_amended :
    (∀ (year : Nat) (now : DateTime) (text : String),
      ChainExtractor.extract_section text "CHAIN_OF_THOUGHT" = "" →
      ChainExtractor.extract_from_snapshot year now text = none) ∧
    (∀ (year : Nat) (now : DateTime) (text : String) (msg : ModelMessage),
      ChainExtractor.extract_from_snapshot year now text = some msg →
      msg.chain_of_thought ≠ "") ∧
    (∀ (now : DateTime) (row : ExtensionRow) (msg : ModelMessage),
      ExtensionDataReader.extract_section (row.raw_content.getD "") "CHAIN_OF_THOUGHT" = "" →
      ExtensionDataReader.row_to_model_message now row = some msg →
      msg.chain_of_thought = pyOrStr row.reasoning (row.raw_content.getD "")) := by
  refine ⟨?_, ?_, ?_⟩
  · intro year now text h
    unfold ChainExtractor.extract_from_snapshot
    cases hm : ChainExtractor.extract_model_name text with
    | none => rfl
    | some mn =>
        cases ht : ChainExtractor.extract_timestamp year text with
        | none => rfl
        | some ts => simp [h]
  · intro year now text msg hmsg hempty
    unfold ChainExtractor.extract_from_snapshot at hmsg
    rw [Option.bind_eq_bind, Option.bind_eq_some] at hmsg
    obtain ⟨mn, -, hmsg⟩ := hmsg
    rw [Option.bind_eq_bind, Option.bind_eq_some] at hmsg
    obtain ⟨ts, -, hmsg⟩ := hmsg
    by_cases h : ChainExtractor.extract_section text "CHAIN_OF_THOUGHT" = ""
    · rw [if_pos h] at hmsg
      exact Option.noConfusion hmsg
    · rw [if_neg h] at hmsg
      rw [Option.bind_eq_bind, Option.bind_eq_some] at hmsg
      obtain ⟨td, -, hmsg⟩ := hmsg
      rw [Option.bind_eq_bind, Option.bind_eq_some] at hmsg
      obtain ⟨⟨av, tr, sh⟩, -, hmsg⟩ := hmsg
      rw [Option.bind_eq_bind, Option.bind_eq_some] at hmsg
      obtain ⟨md, -, heq⟩ := hmsg
      apply h
      simp only [pure, Option.some.injEq] at heq
      rw [← heq] at hempty
      exact hempty
  · intro now row msg hsec hmsg
    unfold ExtensionDataReader.row_to_model_message at hmsg
    simp only [hsec, if_pos, pure, reduceIte] at hmsg
    split at hmsg
    · rw [Option.bind_eq_bind, Option.bind_eq_some] at hmsg
      obtain ⟨td2, -, heq⟩ := hmsg
      rw [Option.some.injEq] at heq
      rw [← heq]
    · rw [Option.bind_eq_bind, Option.bind_eq_some] at hmsg
      obtain ⟨td2, -, heq⟩ := hmsg
      rw [Option.some.injEq] at heq
      rw [← heq]

/-- C1 witness: the three amended properties at concrete inputs — a snapshot
without the section is discarded, a successful snapshot extraction has a
nonempty chain, and the reader's fallback fills the chain from the row. -/
theorem C1_chain_gate_amended_witness :
    ChainExtractor.extract_from_snapshot 2025 exampleNow "x" = none ∧
    exampleSnapshotMessage.chain_of_thought ≠ "" ∧
    exampleRowMessage.chain_of_thought =
      pyOrStr exampleRow.reasoning (exampleRow.raw_content.getD "") :=
  ⟨C1_chain_gate_amended.1 2025 exampleNow "x" (by decide),
   C1_chain_gate_amended.2.1 2025 exampleNow exampleSnapshot exampleSnapshotMessage (by decide),
   C1_chain_gate_amended.2.2 exampleNow exampleRow exampleRowMessage (by decide) (by decide)⟩

/-! ## Identity-inference lemmas -/

theorem counterGet_bounds {c : List (String × Nat)} {total : Nat} {k : String}
    (hwf : ∀ e ∈ c, 1 ≤ e.2 ∧ e.2 ≤ total) (hhas : counterHas c k = true) :
    1 ≤ counterGet c k ∧ counterGet c k ≤ total := by
  unfold counterHas at hhas
  unfold counterGet
  rw [List.any_eq_true] at hhas
  have hsome : (c.find? (fun e => decide (e.1 = k))).isSome :=
    List.find?_isSome.mpr hhas
  cases hf : c.find? (fun e => decide (e.1 = k)) with
  | none => rw [hf] at hsome; simp at hsome
  | some e =>
      exact hwf e (List.mem_of_find?_eq_some hf)

theorem lengthStep_bounds (fp : Fingerprint) (u : UnknownData) (sw : ℚ × ℚ)
    (hwf : ∀ a, fp.avg_length = some a → 0 ≤ a)
    (h0 : 0 ≤ sw.1) (h1 : sw.1 ≤ sw.2) :
    0 ≤ (lengthStep fp u sw).1 ∧ (lengthStep fp u sw).1 ≤ (lengthStep fp u sw).2 := by
  unfold lengthStep
  cases havg : fp.avg_length with
  | none => exact ⟨h0, h1⟩
  | some avg =>
      dsimp only
      by_cases hz : avg ≠ 0
      · rw [if_pos hz]
        have hpos : 0 < avg := lt_of_le_of_ne (hwf avg havg) (Ne.symm hz)
        have hd : 0 ≤ |(u.reasoning.length : ℚ) - avg| / avg :=
          div_nonneg (abs_nonneg _) hpos.le
        have hs0 : 0 ≤ max 0 (1 - |(u.reasoning.length : ℚ) - avg| / avg) := le_max_left _ _
        have hs1 : max 0 (1 - |(u.reasoning.length : ℚ) - avg| / avg) ≤ 1 :=
          max_le (by norm_num) (by linarith)
        constructor
        · simp only
          nlinarith
        · simp only
          nlinarith
      · rw [if_neg hz]
        exact ⟨h0, h1⟩

theorem indicatorStep_bounds (fp : Fingerprint) (u : UnknownData) (sw : ℚ × ℚ)
    (h0 : 0 ≤ sw.1) (h1 : sw.1 ≤ sw.2) :
    0 ≤ (indicatorStep fp u sw).1 ∧ (indicatorStep fp u sw).1 ≤ (indicatorStep fp u sw).2 := by
  unfold indicatorStep
  cases hinds : u.entry_indicators with
  | none => exact ⟨h0, h1⟩
  | some inds =>
      dsimp only
      by_cases hne : inds ≠ []
      · rw [if_pos hne]
        have hlen : 0 < (inds.length : ℚ) := by
          have : inds.length ≠ 0 := fun hc => hne (List.eq_nil_of_length_eq_zero hc)
          positivity
        have hmle : ((inds.filter (fun ind => counterHas fp.entry_indicators ind)).length : ℚ) ≤
            (inds.length : ℚ) := by
          exact_mod_cast List.length_filter_le _ inds
        have hr0 : 0 ≤ ((inds.filter (fun ind => counterHas fp.entry_indicators ind)).length : ℚ) /
            (inds.length : ℚ) := by positivity
        have hr1 : ((inds.filter (fun ind => counterHas fp.entry_indicators ind)).length : ℚ) /
            (inds.length : ℚ) ≤ 1 := by
          rw [div_le_one hlen]
          exact hmle
        constructor
        · simp only
          nlinarith
        · simp only
          nlinarith
      · rw [if_neg hne]
        exact ⟨h0, h1⟩

theorem affinity_ratio_bounds {c : List (String × Nat)} {total : Nat} {k : String}
    (hwf : ∀ e ∈ c, 1 ≤ e.2 ∧ e.2 ≤ total) (hhas : counterHas c k = true) :
    0 ≤ (counterGet c k : ℚ) / (total : ℚ) ∧ (counterGet c k : ℚ) / (total : ℚ) ≤ 1 := by
  obtain ⟨hlo, hhi⟩ := counterGet_bounds hwf hhas
  have htot : 0 < (total : ℚ) := by
    have : 1 ≤ total := le_trans hlo hhi
    exact_mod_cast Nat.lt_of_lt_of_le Nat.zero_lt_one this
  constructor
  · positivity
  · rw [div_le_one htot]
    exact_mod_cast hhi

theorem exitStep_bounds (fp : Fingerprint) (u : UnknownData) (sw : ℚ × ℚ)
    (hwf : ∀ e ∈ fp.exit_types, 1 ≤ e.2 ∧ e.2 ≤ fp.total_messages)
    (h0 : 0 ≤ sw.1) (h1 : sw.1 ≤ sw.2) :
    0 ≤ (exitStep fp u sw).1 ∧ (exitStep fp u sw).1 ≤ (exitStep fp u sw).2 := by
  unfold exitStep
  split
  · split
    · rename_i hhas
      obtain ⟨hr0, hr1⟩ := affinity_ratio_bounds hwf hhas
      constructor
      · simp only
        nlinarith
      · simp only
        nlinarith
    · exact ⟨h0, h1⟩
  · exact ⟨h0, h1⟩

theorem confidenceStep_bounds (fp : Fingerprint) (u : UnknownData) (sw : ℚ × ℚ)
    (hwf : ∀ e ∈ fp.confidence_levels, 1 ≤ e.2 ∧ e.2 ≤ fp.total_messages)
    (h0 : 0 ≤ sw.1) (h1 : sw.1 ≤ sw.2) :
    0 ≤ (confidenceStep fp u sw).1 ∧ (confidenceStep fp u sw).1 ≤ (confidenceStep fp u sw).2 := by
  unfold confidenceStep
  split
  · split
    · rename_i hhas
      obtain ⟨hr0, hr1⟩ := affinity_ratio_bounds hwf hhas
      constructor
      · simp only
        nlinarith
      · simp only
        nlinarith
    · exact ⟨h0, h1⟩
  · exact ⟨h0, h1⟩

theorem risk_matches_le (c : List (String × Nat)) (p : String → Bool) :
    (riskKeywordList.filter (fun kw => p kw && counterHas c kw)).length ≤ c.length := by
  have h5 : riskKeywordList.Nodup := by decide
  have hfnd : (riskKeywordList.filter (fun kw => p kw && counterHas c kw)).Nodup :=
    (List.filter_sublist _).nodup h5
  have hsub : ∀ kw ∈ riskKeywordList.filter (fun kw => p kw && counterHas c kw),
      kw ∈ c.map Prod.fst := by
    intro kw hkw
    have := List.of_mem_filter hkw
    simp only [Bool.and_eq_true] at this
    have hhas := this.2
    unfold counterHas at hhas
    rw [List.any_eq_true] at hhas
    obtain ⟨e, he, hpe⟩ := hhas
    simp only [decide_eq_true_eq] at hpe
    exact hpe ▸ List.mem_map_of_mem Prod.fst he
  calc (riskKeywordList.filter (fun kw => p kw && counterHas c kw)).length
      = (riskKeywordList.filter (fun kw => p kw && counterHas c kw)).toFinset.card :=
        (List.toFinset_card_of_nodup hfnd).symm
    _ ≤ (c.map Prod.fst).toFinset.card := by
        apply Finset.card_le_card
        intro x hx
        rw [List.mem_toFinset] at hx ⊢
        exact hsub x hx
    _ ≤ (c.map Prod.fst).length := List.toFinset_card_le _
    _ = c.length := List.length_map _ _

theorem riskStep_bounds (fp : Fingerprint) (u : UnknownData) (sw : ℚ × ℚ)
    (h0 : 0 ≤ sw.1) (h1 : sw.1 ≤ sw.2) :
    0 ≤ (riskStep fp u sw).1 ∧ (riskStep fp u sw).1 ≤ (riskStep fp u sw).2 := by
  unfold riskStep
  split
  · rename_i hcond
    dsimp only
    split
    · rename_i hmz
      have hlen : 0 < (fp.risk_keywords.length : ℚ) := by
        have : fp.risk_keywords ≠ [] := hcond.2
        have : fp.risk_keywords.length ≠ 0 :=
          fun hc => this (List.eq_nil_of_length_eq_zero hc)
        positivity
      have hle := risk_matches_le fp.risk_keywords
        (fun kw => containsSub kw.data (lowerStr (u.risk_management.getD "")).data)
      have hleq : ((riskKeywordList.filter (fun kw =>
          containsSub kw.data (lowerStr (u.risk_management.getD "")).data &&
            counterHas fp.risk_keywords kw)).length : ℚ) ≤ (fp.risk_keywords.length : ℚ) := by
        exact_mod_cast hle
      have hr0 : (0:ℚ) ≤ ((riskKeywordList.filter (fun kw =>
          containsSub kw.data (lowerStr (u.risk_management.getD "")).data &&
            counterHas fp.risk_keywords kw)).length : ℚ) / (fp.risk_keywords.length : ℚ) := by
        positivity
      have hr1 : ((riskKeywordList.filter (fun kw =>
          containsSub kw.data (lowerStr (u.risk_management.getD "")).data &&
            counterHas fp.risk_keywords kw)).length : ℚ) / (fp.risk_keywords.length : ℚ) ≤ 1 := by
        rw [div_le_one hlen]
        exact hleq
      constructor
      · simp only
        nlinarith
      · simp only
        nlinarith
    · exact ⟨h0, h1⟩
  · exact ⟨h0, h1⟩

theorem model_score_bounds (fp : Fingerprint) (u : UnknownData) (hwf : FingerprintWF fp) :
    0 ≤ ModelIdentifier.model_score fp u ∧ ModelIdentifier.model_score fp u ≤ 1 := by
  obtain ⟨h1, h2, h3⟩ := hwf
  have b1 := lengthStep_bounds fp u (0, 0) h1 (le_refl 0) (le_refl 0)
  have b2 := indicatorStep_bounds fp u (lengthStep fp u (0, 0)) b1.1 b1.2
  have b3 := exitStep_bounds fp u _ h2 b2.1 b2.2
  have b4 := confidenceStep_bounds fp u _ h3 b3.1 b3.2
  have b5 := riskStep_bounds fp u _ b4.1 b4.2
  unfold ModelIdentifier.model_score
  exact div_clamp _ _ b5.1 b5.2

theorem counterAdd_bounds {c : List (String × Nat)} {N : Nat}
    (h : ∀ e ∈ c, 1 ≤ e.2 ∧ e.2 ≤ N) (k : String) :
    ∀ e ∈ counterAdd c k, 1 ≤ e.2 ∧ e.2 ≤ N + 1 := by
  unfold counterAdd
  split
  · intro e he
    simp only [List.mem_map] at he
    obtain ⟨e', he', rfl⟩ := he
    have hb := h e' he'
    split
    · exact ⟨by omega, by omega⟩
    · exact ⟨hb.1, by omega⟩
  · intro e he
    rcases List.mem_append.mp he with he | he
    · have hb := h e he
      exact ⟨hb.1, by omega⟩
    · simp only [List.mem_singleton] at he
      subst he
      exact ⟨le_refl 1, by omega⟩

theorem fingerprintStep_avg (fp : Fingerprint) (row : SRRow) :
    (fingerprintStep fp row).avg_length = fp.avg_length := by
  unfold fingerprintStep
  repeat' split
  all_goals rfl

theorem fingerprintStep_total (fp : Fingerprint) (row : SRRow) :
    (fingerprintStep fp row).total_messages = fp.total_messages + 1 := by
  unfold fingerprintStep
  repeat' split
  all_goals rfl

theorem fingerprintStep_exit (fp : Fingerprint) (row : SRRow) :
    (fingerprintStep fp row).exit_types = fp.exit_types ∨
      ∃ k, (fingerprintStep fp row).exit_types = counterAdd fp.exit_types k := by
  unfold fingerprintStep
  repeat' split
  all_goals first
    | exact Or.inl rfl
    | exact Or.inr ⟨_, rfl⟩

theorem fingerprintStep_confidence (fp : Fingerprint) (row : SRRow) :
    (fingerprintStep fp row).confidence_levels = fp.confidence_levels ∨
      ∃ k, (fingerprintStep fp row).confidence_levels =
        counterAdd fp.confidence_levels k := by
  unfold fingerprintStep
  repeat' split
  all_goals first
    | exact Or.inl rfl
    | exact Or.inr ⟨_, rfl⟩

theorem fingerprintStep_wf {fp : Fingerprint} (row : SRRow) (h : FingerprintWF fp) :
    FingerprintWF (fingerprintStep fp row) := by
  obtain ⟨h1, h2, h3⟩ := h
  refine ⟨?_, ?_, ?_⟩
  · rw [fingerprintStep_avg]
    exact h1
  · rw [fingerprintStep_total]
    rcases fingerprintStep_exit fp row with heq | ⟨k, heq⟩
    · rw [heq]
      intro e he
      have hb := h2 e he
      exact ⟨hb.1, by omega⟩
    · rw [heq]
      exact counterAdd_bounds h2 k
  · rw [fingerprintStep_total]
    rcases fingerprintStep_confidence fp row with heq | ⟨k, heq⟩
    · rw [heq]
      intro e he
      have hb := h3 e he
      exact ⟨hb.1, by omega⟩
    · rw [heq]
      exact counterAdd_bounds h3 k

theorem emptyFingerprint_wf : FingerprintWF emptyFingerprint :=
  ⟨by simp [emptyFingerprint], by simp [emptyFingerprint], by simp [emptyFingerprint]⟩

theorem buildStep_wf {fps : List (String × Fingerprint)} (row : SRRow)
    (h : ∀ e ∈ fps, FingerprintWF e.2) :
    ∀ e ∈ buildStep fps row, FingerprintWF e.2 := by
  unfold buildStep
  split
  · exact h
  · split
    · intro e he
      simp only [List.mem_map] at he
      obtain ⟨e', he', rfl⟩ := he
      split
      · exact fingerprintStep_wf row (h e' he')
      · exact h e' he'
    · intro e he
      rcases List.mem_append.mp he with he | he
      · exact h e he
      · simp only [List.mem_singleton] at he
        subst he
        exact fingerprintStep_wf row emptyFingerprint_wf

theorem buildFold_wf (rows : List SRRow) :
    ∀ init, (∀ e ∈ init, FingerprintWF e.2) →
      ∀ e ∈ rows.foldl buildStep init, FingerprintWF e.2 := by
  induction rows with
  | nil => intro init h; exact h
  | cons r rest ih => intro init h; exact ih _ (buildStep_wf r h)

theorem finalizeFingerprint_wf {fp : Fingerprint} (h : FingerprintWF fp) :
    FingerprintWF (finalizeFingerprint fp) := by
  obtain ⟨h1, h2, h3⟩ := h
  unfold finalizeFingerprint
  split
  · refine ⟨?_, h2, h3⟩
    intro a ha
    simp only [Option.some.injEq] at ha
    rw [← ha]
    apply div_nonneg
    · apply List.sum_nonneg
      intro x hx
      simp only [List.mem_map] at hx
      obtain ⟨n, -, rfl⟩ := hx
      positivity
    · positivity
  · exact ⟨h1, h2, h3⟩

theorem build_fingerprints_wf (rows : List SRRow) :
    ∀ e ∈ ModelIdentifier.build_fingerprints rows, FingerprintWF e.2 := by
  unfold ModelIdentifier.build_fingerprints
  intro e he
  simp only [List.mem_map] at he
  obtain ⟨e', he', rfl⟩ := he
  exact finalizeFingerprint_wf (buildFold_wf rows [] (by simp) e' he')

/-! ## Claim theorems: identity inference -/

/-- C5: for every fingerprint built from known-model rows the aggregate score
of any unknown record lies in `[0, 1]`, and when no sub-score inputs are
present for a pairing the score is exactly `0` (the guarded normalization
never divides by a zero weight sum; absent components are skipped, not
zero-filled). -/
theorem C5_aggregate_score_safety :
    (∀ (rows : List SRRow) (e : String × Fingerprint) (u : UnknownData),
      e ∈ ModelIdentifier.build_fingerprints rows →
      0 ≤ ModelIdentifier.model_score e.2 u ∧ ModelIdentifier.model_score e.2 u ≤ 1) ∧
    (∀ (fp : Fingerprint) (u : UnknownData),
      (fp.avg_length = none ∨ fp.avg_length = some 0) →
      u.entry_indicators = none → u.exit_type = none → u.confidence_level = none →
      u.risk_management = none →
      ModelIdentifier.model_score fp u = 0) := by
  constructor
  · intro rows e u he
    exact model_score_bounds e.2 u (build_fingerprints_wf rows e he)
  · intro fp u havg hind hexit hconf hrisk
    unfold ModelIdentifier.model_score lengthStep indicatorStep exitStep
      confidenceStep riskStep
    rcases havg with havg | havg <;>
      simp [havg, hind, hexit, hconf, hrisk, truthyStr]

/-- C5 witness: the score of a concrete unknown record against the
fingerprint built from one known-model row lies in `[0, 1]`, and a pairing
with no inputs scores `0`. -/
theorem C5_aggregate_score_safety_witness :
    (0 ≤ ModelIdentifier.model_score exampleFingerprint exampleUnknown ∧
      ModelIdentifier.model_score exampleFingerprint exampleUnknown ≤ 1) ∧
    ModelIdentifier.model_score emptyFingerprint ⟨none, none, none, none, "abc"⟩ = 0 :=
  ⟨C5_aggregate_score_safety.1 [exampleSRRow] ("gpt-5", exampleFingerprint)
      exampleUnknown (by
        have h : ModelIdentifier.build_fingerprints [exampleSRRow] =
            [("gpt-5", exampleFingerprint)] := by
          simp +decide [ModelIdentifier.build_fingerprints, buildStep, fingerprintStep,
            finalizeFingerprint, emptyFingerprint, counterAdd, counterHas, containsSub,
            litPrefixOf, lowerStr, toLowerChar, isUpperChar, riskKeywordList,
            exampleSRRow, exampleFingerprint]
        rw [h]
        exact List.mem_singleton.mpr rfl),
   C5_aggregate_score_safety.2 emptyFingerprint ⟨none, none, none, none, "abc"⟩
      (Or.inl rfl) rfl rfl rfl rfl⟩

/-- C6 counterexample: with a single-keyword counter and a risk text matching
exactly one of the five fixed keywords, the claimed sub-score would be `1/5`,
but the code divides the match count by the counter size and the aggregate
score is `1`. -/
theorem C6_risk_subscore_counterexample :
    ModelIdentifier.model_score fpRiskOnly uRiskOnly = 1 ∧
    (riskKeywordList.filter (fun kw =>
      containsSub kw.data (lowerStr "apply risk controls").data &&
        counterHas fpRiskOnly.risk_keywords kw)).length = 1 ∧
    (1 : ℚ) ≠ (1 : ℚ) / 5 := by
  refine ⟨?_, by decide, by norm_num⟩
  simp +decide [ModelIdentifier.model_score, lengthStep, indicatorStep, exitStep,
    confidenceStep, riskStep, fpRiskOnly, uRiskOnly, truthyStr, counterHas,
    containsSub, litPrefixOf, lowerStr, toLowerChar, isUpperChar, riskKeywordList]
  norm_num

/-- C6 amended: when the risk-management text is present, the model's keyword
counter is nonempty, and at least one of the five fixed keywords occurs both
in the lowercased text and in the counter, the risk sub-score block adds
weight `0.15` times the match count divided by the number of entries of the
model's keyword counter (not divided by five); with no matching keyword the
block is skipped entirely. -/
theorem C6_risk_subscore_amended :
    ∀ (fp : Fingerprint) (u : UnknownData) (s w : ℚ),
      truthyStr u.risk_management = true →
      fp.risk_keywords ≠ [] →
      (riskKeywordList.filter (fun kw =>
        containsSub kw.data (lowerStr (u.risk_management.getD "")).data &&
          counterHas fp.risk_keywords kw)).length ≠ 0 →
      riskStep fp u (s, w) =
        (s + (((riskKeywordList.filter (fun kw =>
          containsSub kw.data (lowerStr (u.risk_management.getD "")).data &&
            counterHas fp.risk_keywords kw)).length : ℚ) /
          (fp.risk_keywords.length : ℚ)) * 0.15, w + 0.15) := by
  intro fp u s w h1 h2 h3
  unfold riskStep
  rw [if_pos ⟨h1, h2⟩]
  dsimp only
  rw [if_pos h3]

/-- C6 witness: the amended denominator at the concrete fingerprint whose
counter holds one keyword. -/
theorem C6_risk_subscore_amended_witness :
    riskStep fpRiskOnly uRiskOnly (0, 0) =
      (0 + (((riskKeywordList.filter (fun kw =>
        containsSub kw.data (lowerStr (uRiskOnly.risk_management.getD "")).data &&
          counterHas fpRiskOnly.risk_keywords kw)).length : ℚ) /
        (fpRiskOnly.risk_keywords.length : ℚ)) * 0.15, 0 + 0.15) :=
  C6_risk_subscore_amended fpRiskOnly uRiskOnly 0 0 (by decide) (by decide) (by decide)

/-- C7 counterexample: the chain-of-thought decision pattern captures the
quantity with the class `[\d.]+`, which has no minus sign, so a decision
block whose quantity label reads `QUANTITY: -2.49` fails to match as a whole
and the chain parser returns no decision — the negative quantity is dropped,
contradicting the claim for this parser. -/
theorem C7_negative_quantity_counterexample :
    ChainExtractor.parse_trading_decisions (String.mk
      ("SOL\nHOLD\n65%\nQUANTITY: -2.49").data) = some [] := by
  decide

/-- C7 amended: both decision parsers map the base input
`SOL / HOLD / 65% / QUANTITY: 25.7` to a decision with symbol `SOL`, action
`HOLD`, confidence `0.65` and quantity `25.7`, and the confidence token
`72%` maps to `0.72` in both; the quantity label `QUANTITY: -2.49` parses
to `-2.49` only in the sqlite-reader parser, whose quantity class `[-\d.]+`
admits the sign — in the chain parser negative quantities make the whole
record fail (see the counterexample). -/
theorem C7_decision_parsing_amended :
    ChainExtractor.parse_trading_decisions "SOL\nHOLD\n65%\nQUANTITY: 25.7" =
      some [⟨"SOL", "HOLD", 13/20, some (257/10)⟩] ∧
    ExtensionDataReader.parse_trading_decisions_text "SOL\nHOLD\n65%\nQUANTITY: 25.7" =
      some [⟨"SOL", "HOLD", 13/20, some (257/10)⟩] ∧
    ExtensionDataReader.parse_trading_decisions_text "SOL\nHOLD\n72%" =
      some [⟨"SOL", "HOLD", 18/25, none⟩] ∧
    ChainExtractor.parse_trading_decisions "BTC\nBUY\n72%\nQUANTITY: 1.5" =
      some [⟨"BTC", "BUY", 18/25, some (3/2)⟩] ∧
    ExtensionDataReader.parse_trading_decisions_text "SOL\nHOLD\n65%\nQUANTITY: -2.49" =
      some [⟨"SOL", "HOLD", 13/20, some (-(249/100))⟩] := by
  refine ⟨?_, ?_, ?_, ?_, ?_⟩
  · have h1 : ChainExtractor.parse_trading_decisions "SOL\nHOLD\n65%\nQUANTITY: 25.7" =
        some [⟨"SOL", "HOLD", (digitsVal ['6','5'] : ℚ) / 100,
          some ((digitsVal ['2','5'] : ℚ) + (digitsVal ['7'] : ℚ) / (10 ^ 1 : ℚ))⟩] := rfl
    rw [h1, show digitsVal ['6','5'] = 65 from by decide,
        show digitsVal ['2','5'] = 25 from by decide,
        show digitsVal ['7'] = 7 from by decide]
    norm_num
  · have h1 : ExtensionDataReader.parse_trading_decisions_text "SOL\nHOLD\n65%\nQUANTITY: 25.7" =
        some [⟨"SOL", "HOLD", (digitsVal ['6','5'] : ℚ) / 100,
          some ((digitsVal ['2','5'] : ℚ) + (digitsVal ['7'] : ℚ) / (10 ^ 1 : ℚ))⟩] := rfl
    rw [h1, show digitsVal ['6','5'] = 65 from by decide,
        show digitsVal ['2','5'] = 25 from by decide,
        show digitsVal ['7'] = 7 from by decide]
    norm_num
  · have h1 : ExtensionDataReader.parse_trading_decisions_text "SOL\nHOLD\n72%" =
        some [⟨"SOL", "HOLD", (digitsVal ['7','2'] : ℚ) / 100, none⟩] := rfl
    rw [h1, show digitsVal ['7','2'] = 72 from by decide]
    norm_num
  · have h1 : ChainExtractor.parse_trading_decisions "BTC\nBUY\n72%\nQUANTITY: 1.5" =
        some [⟨"BTC", "BUY", (digitsVal ['7','2'] : ℚ) / 100,
          some ((digitsVal ['1'] : ℚ) + (digitsVal ['5'] : ℚ) / (10 ^ 1 : ℚ))⟩] := rfl
    rw [h1, show digitsVal ['7','2'] = 72 from by decide,
        show digitsVal ['1'] = 1 from by decide,
        show digitsVal ['5'] = 5 from by decide]
    norm_num
  · have h1 : ExtensionDataReader.parse_trading_decisions_text "SOL\nHOLD\n65%\nQUANTITY: -2.49" =
        some [⟨"SOL", "HOLD", (digitsVal ['6','5'] : ℚ) / 100,
          some (-((digitsVal ['2'] : ℚ) + (digitsVal ['4','9'] : ℚ) / (10 ^ 2 : ℚ)))⟩] := rfl
    rw [h1, show digitsVal ['6','5'] = 65 from by decide,
        show digitsVal ['2'] = 2 from by decide,
        show digitsVal ['4','9'] = 49 from by decide]
    norm_num

/-- C8 counterexample: the chain-of-thought decision pattern requires all
four tokens (symbol, action, confidence, quantity), so ragged records are
not accepted there: a record of only a symbol line and an action line, and
likewise one missing just the quantity line, yield no decision at all from
the chain parser, contradicting the claim for this parser. -/
theorem C8_ragged_records_counterexample :
    ChainExtractor.parse_trading_decisions "SOL\nHOLD" = some [] ∧
    ChainExtractor.parse_trading_decisions "SOL\nHOLD\n65%" = some [] := by
  constructor <;> decide

/-- C8 amended: the sqlite-reader parser (alone) accepts ragged records: a
record of a symbol line and an action line yields a decision with
confidence defaulting to `0.5` and no quantity, and a record whose third
line matches the confidence pattern but which has no quantity line yields a
decision with that confidence and no quantity. -/
theorem C8_ragged_records_amended :
    ∀ (text : String) (sym act : List Char),
      isSymbolLine sym = true →
      (decisionLines text = [sym, act] →
        ExtensionDataReader.parse_trading_decisions_text text =
          some [⟨String.mk sym, upperStr (String.mk act), 1/2, none⟩]) ∧
      (∀ (c : List Char) (n : Nat), confLineMatch c = some n →
        decisionLines text = [sym, act, c] →
        ExtensionDataReader.parse_trading_decisions_text text =
          some [⟨String.mk sym, upperStr (String.mk act), (n : ℚ) / 100, none⟩]) := by
  intro text sym act hsym
  constructor
  · intro hl
    unfold ExtensionDataReader.parse_trading_decisions_text
    rw [hl]
    simp [sqliteDecisionsGo, hsym]
  · intro c n hc hl
    unfold ExtensionDataReader.parse_trading_decisions_text
    rw [hl]
    simp [sqliteDecisionsGo, hsym, hc]

/-- C8 witness: the two ragged shapes at concrete inputs. -/
theorem C8_ragged_records_amended_witness :
    ExtensionDataReader.parse_trading_decisions_text "SOL\nHOLD" =
      some [⟨"SOL", "HOLD", 1/2, none⟩] ∧
    ExtensionDataReader.parse_trading_decisions_text "SOL\nHOLD\n65%" =
      some [⟨"SOL", "HOLD", (65 : ℚ) / 100, none⟩] := by
  constructor
  · exact (C8_ragged_records_amended "SOL\nHOLD" ['S','O','L'] ['H','O','L','D']
      (by decide)).1 (by decide)
  · exact (C8_ragged_records_amended "SOL\nHOLD\n65%" ['S','O','L'] ['H','O','L','D']
      (by decide)).2 ['6','5','%'] 65 (by decide) (by decide)

/-- C9 counterexample: neither parser caps the percentage, so the confidence
token `250%` parses to a confidence of `2.5`, outside `[0,1]`. -/
theorem C9_confidence_interval_counterexample :
    ExtensionDataReader.parse_trading_decisions_text "SOL\nHOLD\n250%" =
      some [⟨"SOL", "HOLD", 5/2, none⟩] ∧ ¬((5 : ℚ) / 2 ≤ 1) := by
  constructor
  · have h1 : ExtensionDataReader.parse_trading_decisions_text "SOL\nHOLD\n250%" =
        some [⟨"SOL", "HOLD", (digitsVal ['2','5','0'] : ℚ) / 100, none⟩] := rfl
    rw [h1, show digitsVal ['2','5','0'] = 250 from by decide]
    norm_num
  · norm_num

/-- C9 amended: only the lower bound of the claimed interval holds — every
decision either parser produces has nonnegative confidence (each confidence
is `0.5` or a parsed digit run divided by 100), but the upper bound `≤ 1`
fails (see the counterexample). -/
theorem C9_confidence_nonneg_amended :
    ∀ (text : String) (ds : List TradingDecision),
      (ChainExtractor.parse_trading_decisions text = some ds ∨
       ExtensionDataReader.parse_trading_decisions_text text = some ds) →
      ∀ d ∈ ds, 0 ≤ d.confidence := by
  have hchain : ∀ (fuel : Nat) (l : List Char) (ds : List TradingDecision),
      chainDecisionsGo fuel l = some ds → ∀ d ∈ ds, 0 ≤ d.confidence := by
    intro fuel
    induction fuel with
    | zero =>
        intro l ds h d hd
        simp only [chainDecisionsGo] at h
        cases h
        simp at hd
    | succ fuel ih =>
        intro l ds h d hd
        cases l with
        | nil =>
            simp only [chainDecisionsGo] at h
            cases h
            simp at hd
        | cons c cs =>
            simp only [chainDecisionsGo] at h
            rcases htry : tryDecisionAt (c :: cs) with _ | ⟨⟨sym, act, conf, qty⟩, rest⟩
            · rw [htry] at h
              exact ih cs ds h d hd
            · rw [htry] at h
              dsimp only at h
              rw [Option.bind_eq_bind, Option.bind_eq_some] at h
              obtain ⟨q, hq, h2⟩ := h
              rw [Option.bind_eq_bind, Option.bind_eq_some] at h2
              obtain ⟨ds2, hds2, h3⟩ := h2
              cases h3
              rcases List.mem_cons.mp hd with rfl | hmem
              · exact div_nonneg (Nat.cast_nonneg conf) (by norm_num)
              · exact ih rest ds2 hds2 d hmem
  have hsql : ∀ (fuel : Nat) (lines : List (List Char)) (ds : List TradingDecision),
      sqliteDecisionsGo fuel lines = some ds → ∀ d ∈ ds, 0 ≤ d.confidence := by
    intro fuel
    induction fuel with
    | zero =>
        intro lines ds h d hd
        simp only [sqliteDecisionsGo] at h
        cases h
        simp at hd
    | succ fuel ih =>
        intro lines ds h d hd
        cases lines with
        | nil =>
            simp only [sqliteDecisionsGo] at h
            cases h
            simp at hd
        | cons sym rest =>
            simp only [sqliteDecisionsGo] at h
            by_cases hsym : isSymbolLine sym
            · rw [if_pos hsym] at h
              cases rest with
              | nil =>
                  cases h
                  simp at hd
              | cons act rest2 =>
                  cases rest2 with
                  | nil =>
                      rw [Option.map_eq_some'] at h
                      obtain ⟨ds2, hds2, rfl⟩ := h
                      rcases List.mem_cons.mp hd with rfl | hmem
                      · norm_num
                      · exact ih [] ds2 hds2 d hmem
                  | cons c rest3 =>
                      dsimp only at h
                      rcases hc : confLineMatch c with _ | n
                      · rw [hc] at h
                        dsimp only at h
                        rw [Option.map_eq_some'] at h
                        obtain ⟨ds2, hds2, rfl⟩ := h
                        rcases List.mem_cons.mp hd with rfl | hmem
                        · norm_num
                        · exact ih (act :: c :: rest3).tail ds2 hds2 d hmem
                      · rw [hc] at h
                        dsimp only at h
                        cases rest3 with
                        | nil =>
                            rw [Option.map_eq_some'] at h
                            obtain ⟨ds2, hds2, rfl⟩ := h
                            rcases List.mem_cons.mp hd with rfl | hmem
                            · exact div_nonneg (Nat.cast_nonneg n) (by norm_num)
                            · exact ih [] ds2 hds2 d hmem
                        | cons q rest4 =>
                            dsimp only at h
                            rcases hq : qtyLineMatch q with _ | cap
                            · rw [hq] at h
                              dsimp only at h
                              rw [Option.map_eq_some'] at h
                              obtain ⟨ds2, hds2, rfl⟩ := h
                              rcases List.mem_cons.mp hd with rfl | hmem
                              · exact div_nonneg (Nat.cast_nonneg n) (by norm_num)
                              · exact ih (q :: rest4) ds2 hds2 d hmem
                            · rw [hq] at h
                              dsimp only at h
                              rw [Option.bind_eq_bind, Option.bind_eq_some] at h
                              obtain ⟨v, hv, h2⟩ := h
                              rw [Option.bind_eq_bind, Option.bind_eq_some] at h2
                              obtain ⟨ds2, hds2, h3⟩ := h2
                              cases h3
                              rcases List.mem_cons.mp hd with rfl | hmem
                              · exact div_nonneg (Nat.cast_nonneg n) (by norm_num)
                              · exact ih rest4 ds2 hds2 d hmem
            · rw [if_neg hsym] at h
              exact ih rest ds h d hd
  intro text ds h d hd
  rcases h with h | h
  · unfold ChainExtractor.parse_trading_decisions at h
    exact hchain _ _ _ h d hd
  · unfold ExtensionDataReader.parse_trading_decisions_text at h
    exact hsql _ _ _ h d hd

/-- C9 witness: the amended bound at a concrete parse. -/
theorem C9_confidence_nonneg_amended_witness :
    ExtensionDataReader.parse_trading_decisions_text "SOL\nHOLD\n72%" =
      some [⟨"SOL", "HOLD", (digitsVal ['7','2'] : ℚ) / 100, none⟩] ∧
    0 ≤ (TradingDecision.mk "SOL" "HOLD" ((digitsVal ['7','2'] : ℚ) / 100) none).confidence :=
  ⟨rfl, C9_confidence_nonneg_amended "SOL\nHOLD\n72%"
    [⟨"SOL", "HOLD", (digitsVal ['7','2'] : ℚ) / 100, none⟩] (Or.inr rfl)
    ⟨"SOL", "HOLD", (digitsVal ['7','2'] : ℚ) / 100, none⟩ (List.mem_singleton.mpr rfl)⟩
